import Mathlib

/-!
Verification development for the litellm-proxy-for-bedrock gateway
(FastAPI application in app/main.py).

The Python request bodies, response bodies and stream chunks are JSON-like
values; they are embedded as the inductive type PyVal below.  Python dicts
are association lists with unique keys (as produced by json parsing);
Python exceptions are embedded as values of type PyExn carrying the message
and the exception class name, and fallible Python code is embedded as
functions into Except PyExn.
-/

/-- A JSON-like Python value: strings, integers, booleans, None, lists and
dicts (dicts as association lists keyed by strings). -/
inductive PyVal where
  | str (s : String)
  | int (n : Int)
  | bool (b : Bool)
  | null
  | list (xs : List PyVal)
  | dict (kvs : List (String × PyVal))

/-- A Python exception value: the message (str(e)) and the class name
(type(e).__name__). -/
structure PyExn where
  message : String
  ty : String
deriving DecidableEq

/-- Python truthiness of a value (bool(v)). -/
def py_truthy : PyVal → Bool
  | .str s => !s.isEmpty
  | .int n => n != 0
  | .bool b => b
  | .null => false
  | .list xs => !xs.isEmpty
  | .dict kvs => !kvs.isEmpty

/-- Dict lookup, d[k] as an Option (first matching key). -/
def dGet {α : Type} : List (String × α) → String → Option α
  | [], _ => Option.none
  | (k', v) :: rest, k => if k' = k then some v else dGet rest k

/-- Dict update d[k] = v: replaces the value at an existing key in place,
otherwise appends the new pair at the end (CPython insertion order). -/
def dSet {α : Type} : List (String × α) → String → α → List (String × α)
  | [], k, v => [(k, v)]
  | (k', v') :: rest, k, v =>
    if k' = k then (k, v) :: rest else (k', v') :: dSet rest k v

/-- Dict key removal d.pop(k) (the removed value is discarded by the code). -/
def dPop {α : Type} (d : List (String × α)) (k : String) : List (String × α) :=
  d.filter (fun kv => kv.1 ≠ k)

/-- The KeyError raised by a failed d[k] lookup. -/
def exnKey (k : String) : PyExn := ⟨k, "KeyError"⟩

/-- The IndexError raised by an out-of-range list index. -/
def exnIndex : PyExn := ⟨"list index out of range", "IndexError"⟩

/-- An AttributeError (e.g. calling .get or .copy on a non-dict). -/
def exnAttr (m : String) : PyExn := ⟨m, "AttributeError"⟩

/-- A TypeError (e.g. subscripting or iterating a non-container). -/
def exnType (m : String) : PyExn := ⟨m, "TypeError"⟩

/-- Python v[i] for an integer index i. -/
def pySubNat (v : PyVal) (i : Nat) : Except PyExn PyVal :=
  match v with
  | .list xs =>
    match xs[i]? with
    | some x => .ok x
    | Option.none => .error exnIndex
  | .str s =>
    match s.toList[i]? with
    | some c => .ok (.str (String.singleton c))
    | Option.none => .error ⟨"string index out of range", "IndexError"⟩
  | .dict _ => .error (exnKey (toString i))
  | _ => .error (exnType "object is not subscriptable")

/-- Python v[k] for a string key k. -/
def pySubKey (v : PyVal) (k : String) : Except PyExn PyVal :=
  match v with
  | .dict d =>
    match dGet d k with
    | some x => .ok x
    | Option.none => .error (exnKey k)
  | .list _ => .error (exnType "list indices must be integers")
  | .str _ => .error (exnType "string indices must be integers")
  | _ => .error (exnType "object is not subscriptable")

/-- Python v.get(k, default); raises AttributeError on non-dicts. -/
def pyGetDefault (v : PyVal) (k : String) (dflt : PyVal) : Except PyExn PyVal :=
  match v with
  | .dict kvs => .ok ((dGet kvs k).getD dflt)
  | _ => .error (exnAttr "object has no attribute get")

/-- Substring containment test on strings (needle in haystack). -/
def containsSub (needle haystack : String) : Bool :=
  haystack.toList.tails.any (fun t => needle.toList.isPrefixOf t)

/-- Python s.startswith(pre). -/
def str_startswith (s pre : String) : Bool :=
  pre.toList.isPrefixOf s.toList

/-- Python s.lower(). -/
def str_lower (s : String) : String :=
  String.mk (s.toList.map Char.toLower)

/-- Python s.split(sep) on a one-character separator, at character level. -/
def split_chars (sep : Char) : List Char → List (List Char)
  | [] => [[]]
  | ch :: rest =>
    let r := split_chars sep rest
    if ch = sep then [] :: r
    else
      match r with
      | [] => [[ch]]
      | g :: gs => (ch :: g) :: gs

/-- Python s.split(sep) for a one-character separator string. -/
def str_split (s : String) (sep : Char) : List String :=
  (split_chars sep s.toList).map String.mk

/-- Python key in container: dict key membership, list element membership,
string substring; TypeError on non-containers. -/
def pyIn (needle : String) (container : PyVal) : Except PyExn Bool :=
  match container with
  | .dict d => .ok (dGet d needle).isSome
  | .list xs =>
    .ok (xs.any (fun x => match x with | .str s => s == needle | _ => false))
  | .str s => .ok (containsSub needle s)
  | _ => .error (exnType "argument is not iterable")

/-- Python v[k] = x assignment on the request body; TypeError on non-dicts. -/
def pySetKey (v : PyVal) (k : String) (x : PyVal) : Except PyExn PyVal :=
  match v with
  | .dict d => .ok (.dict (dSet d k x))
  | _ => .error (exnType "object does not support item assignment")

/-- Python v.pop(k) on the request body; TypeError on non-dicts. -/
def pyPopKey (v : PyVal) (k : String) : Except PyExn PyVal :=
  match v with
  | .dict d => .ok (.dict (dPop d k))
  | _ => .error (exnType "object has no attribute pop")

/-- Python v.copy() - shallow copy; at value level a dict or list copy is
the same value, and non-containers raise AttributeError. -/
def copyV : PyVal → Except PyExn PyVal
  | .dict d => .ok (.dict d)
  | .list xs => .ok (.list xs)
  | _ => .error (exnAttr "object has no attribute copy")

/-- The ephemeral cache-control marker dict from add_cache_control_to_messages. -/
def cache_marker : PyVal := .dict [("type", .str "ephemeral")]

/-- One loop body of the content / tool_calls marking loops of
add_cache_control_to_messages: a dict item is (shallow-)copied and given the
cache marker; any other item is kept as is. -/
def markIfDict (v : PyVal) : PyVal :=
  match v with
  | .dict d => .dict (dSet d "cache_control" cache_marker)
  | x => x

/-- The processing applied by add_cache_control_to_messages to the (copy of
the) last message: mark the message itself when its content is a string,
mark each dict part when its content is a list, then mark each dict entry of
a tool_calls list.  A non-dict last message raises AttributeError at
last_message.get. -/
def processLastMessage (last : PyVal) : Except PyExn PyVal :=
  match last with
  | .dict d =>
    let d1 :=
      match dGet d "content" with
      | some (.str _) => dSet d "cache_control" cache_marker
      | some (.list items) => dSet d "content" (.list (items.map markIfDict))
      | _ => d
    let d2 :=
      match dGet d1 "tool_calls" with
      | some (.list tcs) => dSet d1 "tool_calls" (.list (tcs.map markIfDict))
      | _ => d1
    .ok (.dict d2)
  | .list _ => .error (exnAttr "list object has no attribute get")
  | _ => .error (exnAttr "object has no attribute get")

/-- The message-copy comprehension (line 111): copy each message in order,
propagating the exception a non-copyable element raises. -/
def copy_each : List PyVal → Except PyExn (List PyVal)
  | [] => .ok []
  | m :: rest => do
    let c ← copyV m
    let cs ← copy_each rest
    .ok (c :: cs)

/-- Embedding of add_cache_control_to_messages (app/main.py lines 105-144):
returns the argument itself when it is falsy, otherwise copies every
message and adds the ephemeral cache markers to the last copy only. -/
def add_cache_control_to_messages (messages : PyVal) : Except PyExn PyVal :=
  if py_truthy messages = false then .ok messages
  else
    match messages with
    | .list ms => do
      let cached ← copy_each ms
      match cached.getLast? with
      | some last => do
        let last2 ← processLastMessage last
        .ok (.list (cached.dropLast ++ [last2]))
      | Option.none => .ok (.list cached)
    | .str _ => .error (exnAttr "str object has no attribute copy")
    | .dict _ => .error (exnAttr "str object has no attribute copy")
    | _ => .error (exnType "object is not iterable")

/-!  Request normalization (chat_completions_handler and messages_handler,
app/main.py lines 245-276 and 397-421): the body transformations applied
before the backend is invoked. -/

/-- A JSONResponse: HTTP status code and JSON content. -/
structure JsonResp where
  status : Nat
  content : PyVal

/-- The error body shape used by all error responses of the gateway. -/
def error_body (msg ty : String) : PyVal :=
  .dict [("error", .dict [("message", .str msg), ("type", .str ty)])]

/-- The 400 response returned when the request body has no model field
(app/main.py lines 256-259 and 407-410). -/
def no_model_response : JsonResp :=
  ⟨400, error_body "No model specified in request" "ValueError"⟩

/-- Model-name rewriting of chat_completions_handler (lines 251-253): a model
not already namespaced gets the bedrock/converse/ marker. -/
def model_step_chat (m body : PyVal) : Except PyExn PyVal :=
  match m with
  | .str s =>
    if str_startswith s "bedrock/" then pure body
    else pySetKey body "model" (.str ("bedrock/converse/" ++ s))
  | _ => .error (exnAttr "object has no attribute startswith")

/-- Model-name rewriting of messages_handler (lines 403-405): the bare
bedrock/ namespace. -/
def model_step_messages (m body : PyVal) : Except PyExn PyVal :=
  match m with
  | .str s =>
    if str_startswith s "bedrock/" then pure body
    else pySetKey body "model" (.str ("bedrock/" ++ s))
  | _ => .error (exnAttr "object has no attribute startswith")

/-- The elif branch of region resolution: keep an existing aws_region_name
body field, otherwise fill in the process default region. -/
def region_default_step (default_region : String) (b : PyVal) : Except PyExn PyVal := do
  let has ← pyIn "aws_region_name" b
  if has then pure b else pySetKey b "aws_region_name" (.str default_region)

/-- Region resolution (lines 261-265 and 412-416): a truthy route-level
region overwrites the body field; otherwise an existing body field is kept;
otherwise the process default region is used. -/
def region_step (region : Option String) (default_region : String) (b : PyVal) :
    Except PyExn PyVal :=
  match region with
  | some r =>
    if r ≠ "" then pySetKey b "aws_region_name" (.str r)
    else region_default_step default_region b
  | Option.none => region_default_step default_region b

/-- Prompt-cache annotation step (lines 267-270 and 418-421): on the
cache-enabled route variant, rewrite the messages field through
add_cache_control_to_messages when present. -/
def cache_step (enable_cache : Bool) (b : PyVal) : Except PyExn PyVal :=
  if enable_cache then do
    let has ← pyIn "messages" b
    if has then do
      let msgs ← pySubKey b "messages"
      let msgs2 ← add_cache_control_to_messages msgs
      pySetKey b "messages" msgs2
    else pure b
  else pure b

/-- Anthropic parameter fix-up of chat_completions_handler only (lines
272-276): when the model name contains anthropic (case-insensitively) and
both temperature and top_p are present, top_p is popped. -/
def anthropic_step (b : PyVal) : Except PyExn PyVal := do
  let hasModel ← pyIn "model" b
  if hasModel then do
    let m ← pySubKey b "model"
    match m with
    | .str s =>
      if containsSub "anthropic" (str_lower s) then do
        let hasT ← pyIn "temperature" b
        let hasP ← pyIn "top_p" b
        if hasT && hasP then pyPopKey b "top_p" else pure b
      else pure b
    | _ => .error (exnAttr "object has no attribute lower")
  else pure b

/-- Normalization path of chat_completions_handler (lines 250-276).  The
result is either an early JSONResponse (Sum.inl, the 400 for a missing
model) or the normalized body (Sum.inr); Python exceptions surface in the
Except layer and are mapped to a 500 by the handler. -/
def chat_normalize (region : Option String) (enable_cache : Bool)
    (default_region : String) (body0 : PyVal) :
    Except PyExn (JsonResp ⊕ PyVal) := do
  let hasModel ← pyIn "model" body0
  if !hasModel then
    return Sum.inl no_model_response
  else do
    let m ← pySubKey body0 "model"
    let body1 ← model_step_chat m body0
    let body2 ← region_step region default_region body1
    let body3 ← cache_step enable_cache body2
    let body4 ← anthropic_step body3
    return Sum.inr body4

/-- Normalization path of messages_handler (lines 402-421): like the chat
surface but with the bare bedrock/ namespace and no anthropic top_p
fix-up. -/
def messages_normalize (region : Option String) (enable_cache : Bool)
    (default_region : String) (body0 : PyVal) :
    Except PyExn (JsonResp ⊕ PyVal) := do
  let hasModel ← pyIn "model" body0
  if !hasModel then
    return Sum.inl no_model_response
  else do
    let m ← pySubKey body0 "model"
    let body1 ← model_step_messages m body0
    let body2 ← region_step region default_region body1
    let body3 ← cache_step enable_cache body2
    return Sum.inr body3

/-!  Stream relay (generate_stream in chat_completions_handler, lines
280-335, and in messages_handler, lines 423-452).  An upstream response is
a list of chunks possibly terminated by an exception raised while
iterating; the relay emits outbound SSE frames. -/

/-- The behavior of one opened upstream chat stream: the chunk dicts it
yields (already collapsed to plain mappings, lines 300-309) followed by an
optional exception raised while iterating. -/
structure UpstreamChat where
  chunks : List (List (String × PyVal))
  tailErr : Option PyExn

/-- The behavior of one opened upstream anthropic-messages stream: the raw
chunks it yields followed by an optional exception. -/
structure UpstreamMsgs where
  chunks : List String
  tailErr : Option PyExn

/-- An outbound stream frame: a chat data frame carrying a chunk dict, a raw
passthrough chunk of the messages surface, the terminal done frame, or an
error frame carrying a message and an exception class name. -/
inductive Frame where
  | data (chunk : List (String × PyVal))
  | raw (s : String)
  | done
  | err (message ty : String)

/-- Evaluation of the pinning guard (line 313):
chunk_dict.get("choices", [dict()])[0].get("delta", dict()).get("tool_calls"). -/
def pin_condition (c : List (String × PyVal)) : Except PyExn PyVal := do
  let s1 := (dGet c "choices").getD (.list [.dict []])
  let s2 ← pySubNat s1 0
  let s3 ← pyGetDefault s2 "delta" (.dict [])
  pyGetDefault s3 "tool_calls" .null

/-- Evaluation of the pinned-id read (line 315):
chunk_dict["choices"][0]["delta"]["tool_calls"][0].get("id", uuid4().hex),
with fresh standing for the generated uuid hex. -/
def pin_read (fresh : String) (c : List (String × PyVal)) : Except PyExn PyVal := do
  let v1 ← pySubKey (.dict c) "choices"
  let v2 ← pySubNat v1 0
  let v3 ← pySubKey v2 "delta"
  let v4 ← pySubKey v3 "tool_calls"
  let v5 ← pySubNat v4 0
  pyGetDefault v5 "id" (.str fresh)

/-- Evaluation of the pinned-id write (line 316):
chunk_dict["choices"][0]["delta"]["tool_calls"][0]["id"] = tool_id,
rebuilding the nested structure; the exception classes match the Python
navigation and item-assignment failures. -/
def pin_assign (c : List (String × PyVal)) (tid : PyVal) :
    Except PyExn (List (String × PyVal)) :=
  match dGet c "choices" with
  | Option.none => .error (exnKey "choices")
  | some choices =>
    match choices with
    | .list cs =>
      match cs[0]? with
      | Option.none => .error exnIndex
      | some c0 =>
        match c0 with
        | .dict d0 =>
          match dGet d0 "delta" with
          | Option.none => .error (exnKey "delta")
          | some (.dict dd) =>
            match dGet dd "tool_calls" with
            | Option.none => .error (exnKey "tool_calls")
            | some (.list ts) =>
              match ts[0]? with
              | Option.none => .error exnIndex
              | some (PyVal.dict e0) =>
                let e0' := PyVal.dict (dSet e0 "id" tid)
                let ts' := ts.set 0 e0'
                let dd' := dSet dd "tool_calls" (.list ts')
                let d0' := dSet d0 "delta" (.dict dd')
                let cs' := cs.set 0 (.dict d0')
                .ok (dSet c "choices" (.list cs'))
              | some _ => .error (exnType "object does not support item assignment")
            | some (.str s) =>
              if s.isEmpty then .error ⟨"string index out of range", "IndexError"⟩
              else .error (exnType "str object does not support item assignment")
            | some (.dict _) => .error (exnKey "0")
            | some _ => .error (exnType "object is not subscriptable")
          | some (.str _) => .error (exnType "string indices must be integers")
          | some (.list _) => .error (exnType "list indices must be integers")
          | some _ => .error (exnType "object is not subscriptable")
        | .str _ => .error (exnType "string indices must be integers")
        | .list _ => .error (exnType "list indices must be integers")
        | _ => .error (exnType "object is not subscriptable")
    | .str s =>
      if s.isEmpty then .error ⟨"string index out of range", "IndexError"⟩
      else .error (exnType "string indices must be integers")
    | .dict _ => .error (exnKey "0")
    | _ => .error (exnType "object is not subscriptable")

/-- The exception classes caught by the per-chunk except clause (line 317):
KeyError and IndexError. -/
def catchable (e : PyExn) : Bool :=
  e.ty = "KeyError" || e.ty = "IndexError"

/-- The per-chunk tool-call handling (lines 312-318): evaluate the guard,
update the tool_id state when it is falsy, write the pinned id into the
chunk; KeyError and IndexError are caught, leaving the chunk unmodified for
that chunk only, while other exceptions propagate to the stream-level
handler.  Returns the chunk to emit and the new tool_id state. -/
def pin_chunk (fresh : String) (tid : PyVal) (c : List (String × PyVal)) :
    Except PyExn (List (String × PyVal) × PyVal) :=
  match pin_condition c with
  | .error e => if catchable e then .ok (c, tid) else .error e
  | .ok cond =>
    if py_truthy cond then
      if py_truthy tid then
        match pin_assign c tid with
        | .ok c' => .ok (c', tid)
        | .error e => if catchable e then .ok (c, tid) else .error e
      else
        match pin_read fresh c with
        | .error e => if catchable e then .ok (c, tid) else .error e
        | .ok tid' =>
          match pin_assign c tid' with
          | .ok c' => .ok (c', tid')
          | .error e => if catchable e then .ok (c, tid') else .error e
    else .ok (c, tid)

/-- The chunk loop of generate_stream (lines 299-328): each chunk goes
through pin_chunk and is emitted as a data frame; on exhaustion with no
upstream error a single done frame is emitted; an exception (from upstream
iteration or an uncaught pinning failure) yields a single error frame and
ends the sequence.  fresh n is the uuid hex generated while handling the
n-th chunk. -/
def relay_go (fresh : Nat → String) :
    List (List (String × PyVal)) → Option PyExn → PyVal → Nat → List Frame
  | [], tailErr, _, _ =>
    match tailErr with
    | Option.none => [Frame.done]
    | some e => [Frame.err e.message e.ty]
  | c :: rest, te, tid, n =>
    match pin_chunk (fresh n) tid c with
    | .ok (c', tid') => Frame.data c' :: relay_go fresh rest te tid' (n + 1)
    | .error e => [Frame.err e.message e.ty]

/-- Whether the chunk loop aborts with an uncaught pinning exception. -/
def relay_aborts (fresh : Nat → String) :
    List (List (String × PyVal)) → PyVal → Nat → Bool
  | [], _, _ => false
  | c :: rest, tid, n =>
    match pin_chunk (fresh n) tid c with
    | .ok (_, tid') => relay_aborts fresh rest tid' (n + 1)
    | .error _ => true

/-- generate_stream of chat_completions_handler (lines 280-335): acall is
the outcome of the single litellm.acompletion call; if it raises, a single
error frame is emitted; otherwise the chunk loop runs with the tool_id
state initialized to the empty string. -/
def generate_stream_chat (fresh : Nat → String)
    (acall : Except PyExn UpstreamChat) : List Frame :=
  match acall with
  | .error e => [Frame.err e.message e.ty]
  | .ok u => relay_go fresh u.chunks u.tailErr (.str "") 0

/-- generate_stream of messages_handler (lines 423-452): chunks are yielded
through unchanged; an exception (from the single acreate call or from
iteration) yields a single error frame; exhaustion emits no terminal
marker. -/
def generate_stream_messages (mcall : Except PyExn UpstreamMsgs) : List Frame :=
  match mcall with
  | .error e => [Frame.err e.message e.ty]
  | .ok u =>
    u.chunks.map Frame.raw ++
      (match u.tailErr with
       | Option.none => []
       | some e => [Frame.err e.message e.ty])

/-- json.dumps for the SSE serialization (line 321 and the error frames):
a simple JSON rendering of PyVal (string escaping elided; the frames in the
claims carry plain strings). -/
def pyDumps : PyVal → String
  | .str s => "\"" ++ s ++ "\""
  | .int n => toString n
  | .bool b => if b then "true" else "false"
  | .null => "null"
  | .list xs =>
    "[" ++ String.intercalate ", " (xs.attach.map (fun x => pyDumps x.1)) ++ "]"
  | .dict kvs =>
    "\x7b" ++
      String.intercalate ", "
        (kvs.attach.map (fun kv => "\"" ++ kv.1.1 ++ "\": " ++ pyDumps kv.1.2)) ++
      "\x7d"
termination_by v => sizeOf v
decreasing_by
  · have := List.sizeOf_lt_of_mem x.2
    simp only [PyVal.list.sizeOf_spec]
    omega
  · have h1 := List.sizeOf_lt_of_mem kv.2
    have h2 : sizeOf kv.1.2 < sizeOf kv.1 := by
      obtain ⟨a, b⟩ := kv.1
      simp only [Prod.mk.sizeOf_spec]
      omega
    simp only [PyVal.dict.sizeOf_spec]
    omega

/-- The text of one outbound SSE frame: data frames and error frames are
data: json dumps of the payload followed by a blank line (lines 322 and 335
and 452), the terminal done frame is the literal of line 328, and messages
chunks pass through raw (line 440). -/
def render_frame : Frame → String
  | .data c => "data: " ++ pyDumps (.dict c) ++ "\n\n"
  | .raw s => s
  | .done => "data: [DONE]\n\n"
  | .err m t => "data: " ++ pyDumps (error_body m t) ++ "\n\n"

/-!  The full request handlers.  The backend collaborators
(litellm.acompletion in both modes and litellm.anthropic.messages.acreate)
are parameters: a function from the outgoing body to the outcome of the
single call the handler makes. -/

/-- A handler outcome: a JSONResponse, or a StreamingResponse abstracted as
the list of frames its generator yields. -/
inductive HandlerResult where
  | json (status : Nat) (content : PyVal)
  | stream (frames : List Frame)

/-- The streaming / non-streaming dispatch of chat_completions_handler
(lines 278-373) after normalization: on a truthy stream flag, build
stream_options (copy plus complete_response default) and return the
streaming response over generate_stream; otherwise make the single
non-streaming acompletion call, returning its payload or the 500 error
body from the inner except clause (lines 366-373). -/
def chat_dispatch (fresh : Nat → String)
    (acall : PyVal → Except PyExn PyVal)
    (astream : PyVal → Except PyExn UpstreamChat)
    (b : PyVal) : Except PyExn HandlerResult := do
  let sf ← pyGetDefault b "stream" (.bool false)
  if py_truthy sf then do
    let so ← copyV b
    let hasCR ← pyIn "complete_response" so
    let so2 ← if hasCR then pure so else pySetKey so "complete_response" (.bool false)
    pure (HandlerResult.stream (generate_stream_chat fresh (astream so2)))
  else
    pure
      (match acall b with
       | .ok p => HandlerResult.json 200 p
       | .error e => HandlerResult.json 500 (error_body e.message e.ty))

/-- chat_completions_handler (lines 245-379): normalization, then dispatch;
the outer except clause maps any uncaught exception to a 500 with the
generic error body (lines 375-379). -/
def chat_completions_handler (region : Option String) (enable_cache : Bool)
    (default_region : String) (fresh : Nat → String)
    (acall : PyVal → Except PyExn PyVal)
    (astream : PyVal → Except PyExn UpstreamChat)
    (body0 : PyVal) : HandlerResult :=
  match (do
    let pre ← chat_normalize region enable_cache default_region body0
    match pre with
    | Sum.inl r => pure (HandlerResult.json r.status r.content)
    | Sum.inr b => chat_dispatch fresh acall astream b) with
  | .ok hr => hr
  | .error e => .json 500 (error_body e.message e.ty)

/-- messages_handler (lines 397-463): normalization, then always a
streaming response over its generate_stream; the outer except clause maps
any uncaught exception to a 500 with the generic error body (459-463). -/
def messages_handler (region : Option String) (enable_cache : Bool)
    (default_region : String)
    (mcall : PyVal → Except PyExn UpstreamMsgs)
    (body0 : PyVal) : HandlerResult :=
  match (do
    let pre ← messages_normalize region enable_cache default_region body0
    match pre with
    | Sum.inl r => pure (HandlerResult.json r.status r.content)
    | Sum.inr b => do
      let so ← copyV b
      let hasCR ← pyIn "complete_response" so
      let so2 ← if hasCR then pure so else pySetKey so "complete_response" (.bool false)
      pure (HandlerResult.stream (generate_stream_messages (mcall so2)))) with
  | .ok hr => hr
  | .error e => .json 500 (error_body e.message e.ty)

/-!  Model catalog (list_models_handler, lines 162-203). -/

/-- The two backend catalog calls for one region: the outcomes of
bedrock_client.list_inference_profiles() and list_foundation_models(). -/
structure CatalogClient where
  inference_profiles : Except PyExn PyVal
  foundation_models : Except PyExn PyVal

/-- One iteration of the inference-profile loop (lines 180-185): id from
inferenceProfileId, owned_by from its second dot-separated segment; a
missing id raises AttributeError on .split, a single-segment id raises
IndexError. -/
def build_profile_entry (m : PyVal) : Except PyExn PyVal := do
  let pid ← pyGetDefault m "inferenceProfileId" .null
  match pid with
  | .str s =>
    let parts := str_split s '.'
    match parts[1]?  with
    | some owner =>
      .ok (.dict [("id", .str s), ("object", .str "model"), ("owned_by", .str owner)])
    | Option.none => .error exnIndex
  | _ => .error (exnAttr "object has no attribute split")

/-- The iteration of the inference-profile loop over a list. -/
def profile_entries_each : List PyVal → Except PyExn (List PyVal)
  | [] => .ok []
  | m :: rest => do
    let e ← build_profile_entry m
    let es ← profile_entries_each rest
    .ok (e :: es)

/-- The inference-profile loop over
response.get("inferenceProfileSummaries", []). -/
def build_profile_entries (resp : PyVal) : Except PyExn (List PyVal) := do
  let summaries ← pyGetDefault resp "inferenceProfileSummaries" (.list [])
  match summaries with
  | .list ms => profile_entries_each ms
  | _ => .error (exnType "object is not iterable")

/-- One iteration of the foundation-model loop (lines 191-197): models are
kept when TEXT is among outputModalities (defaulting to a TEXT singleton),
with id from modelId and owned_by from providerName. -/
def build_fm_entry (m : PyVal) : Except PyExn (Option PyVal) := do
  let mods ← pyGetDefault m "outputModalities" (.list [.str "TEXT"])
  let isText ← pyIn "TEXT" mods
  if isText then do
    let mid ← pyGetDefault m "modelId" .null
    let pname ← pyGetDefault m "providerName" .null
    .ok (some (.dict [("id", mid), ("object", .str "model"), ("owned_by", pname)]))
  else
    .ok Option.none

/-- The iteration of the foundation-model loop over a list. -/
def fm_entries_each : List PyVal → Except PyExn (List PyVal)
  | [] => .ok []
  | m :: rest => do
    let e ← build_fm_entry m
    let es ← fm_entries_each rest
    match e with
    | some v => .ok (v :: es)
    | Option.none => .ok es

/-- The foundation-model loop over response.get("modelSummaries", []). -/
def build_fm_entries (resp : PyVal) : Except PyExn (List PyVal) := do
  let summaries ← pyGetDefault resp "modelSummaries" (.list [])
  match summaries with
  | .list ms => fm_entries_each ms
  | _ => .error (exnType "object is not iterable")

/-- list_models_handler (lines 162-203): resolves the region (a falsy route
region falls back to the process default), queries the two catalog listings
and assembles the OpenAI-format listing.  The except clause only logs: on
any exception the function falls through and returns None (serialized by
the framework as a 200 response with body null), embedded as Option.none. -/
def list_models_handler (region : Option String) (default_region : String)
    (client : String → CatalogClient) : Option PyVal :=
  let aws_region :=
    match region with
    | some r => if r ≠ "" then r else default_region
    | Option.none => default_region
  let cat := client aws_region
  match (do
    let resp1 ← cat.inference_profiles
    let entries1 ← build_profile_entries resp1
    let resp2 ← cat.foundation_models
    let entries2 ← build_fm_entries resp2
    Except.ok (PyVal.dict
      [("object", .str "list"), ("data", .list (entries1 ++ entries2))])) with
  | .ok v => some v
  | .error _ => Option.none

/-!  Credential-pool dispatcher.  The repository revision under src/ makes a
single backend attempt with process credentials; the multi-credential
dispatcher belongs to the near-duplicate revision of this repository that
src/tests/test_api.py exercises (pipe-separated id@secret authorization
pairs) and is not present under src/, so it is modelled from the spec. -/

/-- Modelled from the spec: a CredentialSet as in section 3 of the design,
one id/secret pair used for one backend call attempt (the dispatcher code
is absent from src/). -/
structure CredentialSet where
  id_token : String
  secret_token : String

/-- Modelled from the spec: the tagged InvocationOutcome of section 3,
Success(payload) or Failure(error, credential_used); the failure carries
only the most recent credential/error pair, or nothing on the defensive
empty-credential path (the dispatcher code is absent from src/). -/
inductive InvocationOutcome (α : Type) where
  | success (payload : α)
  | failure (last : Option (PyExn × CredentialSet))

/-- Modelled from the spec: the credential iteration of section 4.3 (the
dispatcher code is absent from src/).  Walks the already-shuffled
credentials carrying the recorded last failure; each credential gets
exactly one call; a raising call is caught and recorded as the new last
failure; iteration stops at the first success; when the list is exhausted
the outcome is a failure carrying only the last recorded error.  Returns
the outcome, the credentials attempted in order, and the recorded last
failure at termination. -/
def dispatch_go {α : Type} (call : CredentialSet → Except PyExn α) :
    List CredentialSet → Option (PyExn × CredentialSet) →
    InvocationOutcome α × List CredentialSet × Option (PyExn × CredentialSet)
  | [], last => (.failure last, [], last)
  | c :: rest, last =>
    match call c with
    | .ok p => (.success p, [c], last)
    | .error e =>
      let r := dispatch_go call rest (some (e, c))
      (r.1, c :: r.2.1, r.2.2)

/-- Modelled from the spec: dispatch of section 4.3 (the dispatcher code is
absent from src/).  The credential sequence is shuffled (the shuffle is an
arbitrary permutation parameter, standing for the fresh per-request
randomness) and then iterated by dispatch_go with no failure recorded
yet. -/
def dispatch {α : Type} (shuffle : List CredentialSet → List CredentialSet)
    (creds : List CredentialSet) (call : CredentialSet → Except PyExn α) :
    InvocationOutcome α × List CredentialSet × Option (PyExn × CredentialSet) :=
  dispatch_go call (shuffle creds) Option.none

/-!  Heap-level embedding of add_cache_control_to_messages, to express the
frame property that the function never mutates its argument.  Message
dicts and content/tool-call parts are objects on a heap; HVal.ref is a
reference to a heap dict.  Addresses model Python object references
(JSON-parsed data is a tree, so distinct messages are distinct objects and
reads never chase a dangling address). -/

/-- A Python value as stored inside a heap dict: scalars inline, dicts by
reference. -/
inductive HVal where
  | str (s : String)
  | int (n : Int)
  | bool (b : Bool)
  | null
  | list (xs : List HVal)
  | ref (a : Nat)

/-- The heap: address-indexed dict objects. -/
abbrev Heap : Type := List (List (String × HVal))

/-- Allocate a fresh dict object, returning the grown heap and the new
address. -/
def halloc (h : Heap) (d : List (String × HVal)) : Heap × Nat :=
  (h ++ [d], h.length)

/-- Read the dict at an address. -/
def hread (h : Heap) (a : Nat) : List (String × HVal) :=
  (h[a]?).getD []

/-- Overwrite the dict at an address. -/
def hwrite (h : Heap) (a : Nat) (d : List (String × HVal)) : Heap :=
  h.set a d

/-- The message-copy loop (line 111): each message dict is shallow-copied
into a fresh object. -/
def copy_messages : Heap → List Nat → Heap × List Nat
  | h, [] => (h, [])
  | h, a :: rest =>
    let al := halloc h (hread h a)
    let r := copy_messages al.1 rest
    (r.1, al.2 :: r.2)

/-- The content / tool_calls marking loops (lines 122-129 and 134-141) at
heap level: each dict item is shallow-copied into a fresh object and given
a cache_control reference to a freshly allocated marker dict; non-dict
items are kept as is. -/
def mark_items : Heap → List HVal → Heap × List HVal
  | h, [] => (h, [])
  | h, v :: rest =>
    match v with
    | .ref b =>
      let ca := halloc h (hread h b)
      let ma := halloc ca.1 [("type", HVal.str "ephemeral")]
      let h3 := hwrite ma.1 ca.2 (dSet (hread ma.1 ca.2) "cache_control" (.ref ma.2))
      let r := mark_items h3 rest
      (r.1, HVal.ref ca.2 :: r.2)
    | x =>
      let r := mark_items h rest
      (r.1, x :: r.2)

/-- Heap-level embedding of add_cache_control_to_messages (lines 105-144)
for message sequences of dict objects: an empty input is returned as is;
otherwise every message is copied, and the cache markers are written only
into the last copy (Python mutates the copied dict in place; here the
accumulated update is written back once, which is observationally the
same).  A content list marks its dict items; string content marks the
message copy itself; a tool_calls list marks its dict entries. -/
def add_cache_control_to_messages_heap (h : Heap) (ms : List Nat) :
    Heap × List Nat :=
  match ms with
  | [] => (h, ms)
  | _ :: _ =>
    let cp := copy_messages h ms
    match cp.2.getLast? with
    | Option.none => (cp.1, cp.2)
    | some aL =>
      let d := hread cp.1 aL
      let step1 : Heap × List (String × HVal) :=
        match dGet d "content" with
        | some (.str _) =>
          let ma := halloc cp.1 [("type", HVal.str "ephemeral")]
          (ma.1, dSet d "cache_control" (.ref ma.2))
        | some (.list items) =>
          let r := mark_items cp.1 items
          (r.1, dSet d "content" (.list r.2))
        | _ => (cp.1, d)
      let step2 : Heap × List (String × HVal) :=
        match dGet step1.2 "tool_calls" with
        | some (.list tcs) =>
          let r := mark_items step1.1 tcs
          (r.1, dSet step1.2 "tool_calls" (.list r.2))
        | _ => step1
      (hwrite step2.1 aL step2.2, cp.2)

/-!  Specification-side characterization definitions used by the theorem
statements below (these follow the wording of the claims, to be compared
with the embedded code). -/

/-- The region value the claims specify: route path segment over explicit
body field over process default. -/
def resolved_region (region : Option String) (d : List (String × PyVal))
    (default_region : String) : PyVal :=
  match region with
  | some r =>
    if r ≠ "" then .str r
    else (dGet d "aws_region_name").getD (.str default_region)
  | Option.none => (dGet d "aws_region_name").getD (.str default_region)

/-- The chat-surface model name after the namespace-prefix step. -/
def chat_model_result (s : String) : String :=
  if str_startswith s "bedrock/" then s else "bedrock/converse/" ++ s

/-- A chunk whose delta carries a well-formed tool-call list: choices is a
list whose first element is a dict, its delta a dict, its tool_calls a
nonempty list whose first entry is a dict.  Returns that first entry. -/
def tc_shape (c : List (String × PyVal)) : Option (List (String × PyVal)) :=
  match dGet c "choices" with
  | some (.list (PyVal.dict d0 :: _)) =>
    match dGet d0 "delta" with
    | some (.dict dd) =>
      match dGet dd "tool_calls" with
      | some (.list (PyVal.dict e0 :: _)) => some e0
      | _ => Option.none
    | _ => Option.none
  | _ => Option.none

/-- Overwriting the id of the first tool-call entry of a well-formed chunk
(the effect of the pinned-id write). -/
def stamp_id (c : List (String × PyVal)) (tid : PyVal) : List (String × PyVal) :=
  match dGet c "choices" with
  | some (.list (PyVal.dict d0 :: rest)) =>
    match dGet d0 "delta" with
    | some (.dict dd) =>
      match dGet dd "tool_calls" with
      | some (.list (PyVal.dict e0 :: ts)) =>
        dSet c "choices" (.list (PyVal.dict
          (dSet d0 "delta" (.dict (dSet dd "tool_calls"
            (.list (PyVal.dict (dSet e0 "id" tid) :: ts))))) :: rest))
      | _ => c
    | _ => c
  | _ => c

/-- A chunk the pinning step skips, emitting it unchanged: the guard
evaluates falsy, or its evaluation raises one of the two caught exception
classes. -/
def pin_skip (c : List (String × PyVal)) : Bool :=
  match pin_condition c with
  | .ok v => !py_truthy v
  | .error e => catchable e

/-- The clean pinning state machine the amended claim describes: scan the
chunks carrying the pin state (initially the empty string); a well-formed
tool-call chunk updates a falsy state to its entry id when the id key is
present, and to the freshly generated uuid of that chunk otherwise, and is
emitted with its first entry id overwritten by the state; any other chunk
is emitted unchanged. -/
def relay_spec (fresh : Nat → String) :
    List (List (String × PyVal)) → PyVal → Nat → List (List (String × PyVal))
  | [], _, _ => []
  | c :: rest, tid, n =>
    match tc_shape c with
    | some e0 =>
      let tid' := if py_truthy tid then tid else (dGet e0 "id").getD (.str (fresh n))
      stamp_id c tid' :: relay_spec fresh rest tid' (n + 1)
    | Option.none => c :: relay_spec fresh rest tid (n + 1)

/-- The tool-call id carried by a relayed frame, when it is a data frame
with a well-formed tool-call entry. -/
def relayed_tool_id (f : Frame) : Option PyVal :=
  match f with
  | .data c =>
    match tc_shape c with
    | some e0 => dGet e0 "id"
    | Option.none => Option.none
  | _ => Option.none

/-!  Helper lemmas about the dict primitives. -/

theorem dGet_dSet_self {α : Type} (d : List (String × α)) (k : String) (v : α) :
    dGet (dSet d k v) k = some v := by
  induction d with
  | nil => simp [dSet, dGet]
  | cons kv rest ih =>
    obtain ⟨k', v'⟩ := kv
    by_cases h : k' = k
    · simp [dSet, dGet, h]
    · simp [dSet, dGet, h, ih]

theorem dGet_dSet_ne {α : Type} (d : List (String × α)) (k k' : String) (v : α)
    (h : k' ≠ k) : dGet (dSet d k v) k' = dGet d k' := by
  have h2 : k ≠ k' := fun hh => h hh.symm
  induction d with
  | nil => simp [dSet, dGet, h2]
  | cons kv rest ih =>
    obtain ⟨k0, v0⟩ := kv
    by_cases h0 : k0 = k
    · subst h0
      simp [dSet, dGet, h2]
    · simp only [dSet, if_neg h0]
      by_cases h1 : k0 = k'
      · simp [dGet, h1]
      · simp [dGet, h1, ih]

theorem dGet_dPop_self {α : Type} (d : List (String × α)) (k : String) :
    dGet (dPop d k) k = Option.none := by
  induction d with
  | nil => simp [dPop, dGet]
  | cons kv rest ih =>
    obtain ⟨k0, v0⟩ := kv
    by_cases h0 : k0 = k
    · simpa [dPop, h0] using ih
    · simpa [dPop, dGet, h0] using ih

theorem dGet_dPop_ne {α : Type} (d : List (String × α)) (k k' : String)
    (h : k' ≠ k) : dGet (dPop d k) k' = dGet d k' := by
  have h2 : k ≠ k' := fun hh => h hh.symm
  induction d with
  | nil => simp [dPop, dGet]
  | cons kv rest ih =>
    obtain ⟨k0, v0⟩ := kv
    by_cases h0 : k0 = k
    · subst h0
      simp only [dPop] at ih ⊢
      simpa [dGet, h2] using ih
    · simp only [dPop, List.filter] at ih ⊢
      by_cases h1 : k0 = k'
      · simp [dGet, h0, h1, h]
      · simpa [dGet, h0, h1] using ih

/-- C1: a request body (on either surface) without a model field gets the
400 response with the ValueError body, independently of every backend
collaborator (so no backend call can have influenced the response), with
no default model substituted. -/
theorem C1_missing_model_rejected
    (region : Option String) (enable_cache : Bool) (default_region : String)
    (fresh : Nat → String)
    (acall : PyVal → Except PyExn PyVal)
    (astream : PyVal → Except PyExn UpstreamChat)
    (mcall : PyVal → Except PyExn UpstreamMsgs)
    (d : List (String × PyVal))
    (h : dGet d "model" = Option.none) :
    chat_completions_handler region enable_cache default_region fresh acall astream
        (.dict d)
      = .json 400 (error_body "No model specified in request" "ValueError")
    ∧ messages_handler region enable_cache default_region mcall (.dict d)
      = .json 400 (error_body "No model specified in request" "ValueError") := by
  constructor
  · simp [chat_completions_handler, chat_normalize, pyIn, h, no_model_response,
      Except.bind, bind, pure, Except.pure]
  · simp [messages_handler, messages_normalize, pyIn, h, no_model_response,
      Except.bind, bind, pure, Except.pure]

/-- Witness for C1 at a concrete body with messages but no model. -/
theorem C1_missing_model_rejected_witness :
    chat_completions_handler Option.none false "us-west-2" (fun _ => "u")
        (fun _ => .ok .null) (fun _ => .ok ⟨[], Option.none⟩)
        (.dict [("messages", .list [])])
      = .json 400 (error_body "No model specified in request" "ValueError")
    ∧ messages_handler Option.none false "us-west-2"
        (fun _ => .ok ⟨[], Option.none⟩)
        (.dict [("messages", .list [])])
      = .json 400 (error_body "No model specified in request" "ValueError") :=
  C1_missing_model_rejected Option.none false "us-west-2" (fun _ => "u")
    (fun _ => .ok .null) (fun _ => .ok ⟨[], Option.none⟩)
    (fun _ => .ok ⟨[], Option.none⟩)
    [("messages", .list [])] (by simp [dGet])

/-!  Unfolding helpers for the Except monad. -/

theorem except_bind_ok {α β : Type} (x : α) (f : α → Except PyExn β) :
    (Except.ok x >>= f) = f x := rfl

theorem except_bind_error {α β : Type} (e : PyExn) (f : α → Except PyExn β) :
    (Except.error e >>= f) = Except.error e := rfl

theorem except_pure_eq {α : Type} (x : α) : (pure x : Except PyExn α) = .ok x := rfl

/-!  Step lemmas for the normalization chain. -/

theorem model_step_chat_ok (s : String) (x : List (String × PyVal))
    (hm : dGet x "model" = some (.str s)) :
    ∃ y, model_step_chat (.str s) (.dict x) = .ok (.dict y)
      ∧ dGet y "model" = some (.str (chat_model_result s))
      ∧ ∀ k, k ≠ "model" → dGet y k = dGet x k := by
  by_cases hb : str_startswith s "bedrock/"
  · exact ⟨x, by simp [model_step_chat, hb, except_pure_eq],
      by simp [chat_model_result, hb, hm], fun k _ => rfl⟩
  · exact ⟨dSet x "model" (.str ("bedrock/converse/" ++ s)),
      by simp [model_step_chat, hb, pySetKey],
      by simp [chat_model_result, hb, dGet_dSet_self],
      fun k hk => dGet_dSet_ne _ _ _ _ hk⟩

theorem model_step_messages_ok (s : String) (x : List (String × PyVal)) :
    ∃ y, model_step_messages (.str s) (.dict x) = .ok (.dict y)
      ∧ ∀ k, k ≠ "model" → dGet y k = dGet x k := by
  by_cases hb : str_startswith s "bedrock/"
  · exact ⟨x, by simp [model_step_messages, hb, except_pure_eq], fun k _ => rfl⟩
  · exact ⟨dSet x "model" (.str ("bedrock/" ++ s)),
      by simp [model_step_messages, hb, pySetKey],
      fun k hk => dGet_dSet_ne _ _ _ _ hk⟩

theorem region_step_ok (region : Option String) (dr : String)
    (x : List (String × PyVal)) :
    ∃ y, region_step region dr (.dict x) = .ok (.dict y)
      ∧ dGet y "aws_region_name" = some (resolved_region region x dr)
      ∧ ∀ k, k ≠ "aws_region_name" → dGet y k = dGet x k := by
  have hdefault : ∃ y, region_default_step dr (.dict x) = .ok (.dict y)
      ∧ dGet y "aws_region_name"
          = some ((dGet x "aws_region_name").getD (.str dr))
      ∧ ∀ k, k ≠ "aws_region_name" → dGet y k = dGet x k := by
    cases hx : dGet x "aws_region_name" with
    | none =>
      exact ⟨dSet x "aws_region_name" (.str dr),
        by simp [region_default_step, pyIn, hx, pySetKey, except_bind_ok],
        by simp [hx, dGet_dSet_self],
        fun k hk => dGet_dSet_ne _ _ _ _ hk⟩
    | some v =>
      exact ⟨x,
        by simp [region_default_step, pyIn, hx, except_bind_ok, except_pure_eq],
        by simp [hx], fun k _ => rfl⟩
  cases region with
  | none => simpa [region_step, resolved_region] using hdefault
  | some r =>
    by_cases hr : r = ""
    · subst hr
      simpa [region_step, resolved_region] using hdefault
    · exact ⟨dSet x "aws_region_name" (.str r),
        by simp [region_step, hr, pySetKey],
        by simp [resolved_region, hr, dGet_dSet_self],
        fun k hk => dGet_dSet_ne _ _ _ _ hk⟩

theorem cache_step_ok (ec : Bool) (x : List (String × PyVal)) (b3 : PyVal)
    (h : cache_step ec (.dict x) = .ok b3) :
    ∃ y, b3 = .dict y ∧ ∀ k, k ≠ "messages" → dGet y k = dGet x k := by
  cases ec with
  | false =>
    simp [cache_step, except_pure_eq] at h
    exact ⟨x, h.symm, fun k _ => rfl⟩
  | true =>
    simp only [cache_step, pyIn, except_bind_ok] at h
    cases hm : dGet x "messages" with
    | none =>
      simp only [hm, Option.isSome_none, Bool.false_eq_true, if_false,
        except_pure_eq] at h
      cases h
      exact ⟨x, rfl, fun k _ => rfl⟩
    | some msgs =>
      simp only [hm, Option.isSome_some, if_true, pySubKey, except_bind_ok] at h
      cases hadd : add_cache_control_to_messages msgs with
      | error e => simp [hadd, except_bind_error] at h
      | ok m2 =>
        simp only [hadd, except_bind_ok, pySetKey] at h
        cases h
        exact ⟨dSet x "messages" m2, rfl, fun k hk => dGet_dSet_ne _ _ _ _ hk⟩

theorem anthropic_step_ok (x : List (String × PyVal)) (b4 : PyVal)
    (h : anthropic_step (.dict x) = .ok b4) :
    ∃ y, b4 = .dict y ∧ ∀ k, k ≠ "top_p" → dGet y k = dGet x k := by
  simp only [anthropic_step, pyIn, except_bind_ok] at h
  cases hm : dGet x "model" with
  | none =>
    simp only [hm, Option.isSome_none, Bool.false_eq_true, if_false,
      except_pure_eq] at h
    cases h
    exact ⟨x, rfl, fun k _ => rfl⟩
  | some m =>
    simp only [hm, Option.isSome_some, if_true, pySubKey, except_bind_ok] at h
    cases m with
    | str s =>
      by_cases hc : containsSub "anthropic" (str_lower s)
      · simp only [hc, if_true] at h
        by_cases ht : (dGet x "temperature").isSome ∧ (dGet x "top_p").isSome
        · simp only [ht.1, ht.2, Bool.and_self, if_true, pyPopKey,
            except_bind_ok, except_pure_eq] at h
          cases h
          exact ⟨dPop x "top_p", rfl, fun k hk => dGet_dPop_ne _ _ _ hk⟩
        · rcases Decidable.not_and_iff_or_not.mp ht with hnt | hnp
          · simp only [Bool.not_eq_true] at hnt
            simp only [hnt, Bool.false_and, if_false, except_pure_eq] at h
            cases h
            exact ⟨x, rfl, fun k _ => rfl⟩
          · simp only [Bool.not_eq_true] at hnp
            simp only [hnp, Bool.and_false, if_false, except_pure_eq] at h
            cases h
            exact ⟨x, rfl, fun k _ => rfl⟩
      · simp only [hc, if_false, except_pure_eq] at h
        cases h
        exact ⟨x, rfl, fun k _ => rfl⟩
    | int n => simp at h
    | bool b => simp at h
    | null => simp at h
    | list xs => simp at h
    | dict kvs => simp at h

theorem resolved_region_congr (region : Option String)
    (x1 x2 : List (String × PyVal)) (dr : String)
    (h : dGet x1 "aws_region_name" = dGet x2 "aws_region_name") :
    resolved_region region x1 dr = resolved_region region x2 dr := by
  cases region <;> simp [resolved_region, h]

theorem chat_normalize_decomp (region : Option String) (ec : Bool) (dr : String)
    (d : List (String × PyVal)) (s : String)
    (hm : dGet d "model" = some (.str s)) :
    chat_normalize region ec dr (.dict d) = do
      let body1 ← model_step_chat (.str s) (.dict d)
      let body2 ← region_step region dr body1
      let body3 ← cache_step ec body2
      let body4 ← anthropic_step body3
      return Sum.inr body4 := by
  unfold chat_normalize
  rw [show pyIn "model" (.dict d) = .ok true by simp [pyIn, hm], except_bind_ok]
  simp only [Bool.not_true, Bool.false_eq_true, if_false]
  rw [show pySubKey (.dict d) "model" = .ok (.str s) by simp [pySubKey, hm],
    except_bind_ok]

theorem messages_normalize_decomp (region : Option String) (ec : Bool)
    (dr : String) (d : List (String × PyVal)) (s : String)
    (hm : dGet d "model" = some (.str s)) :
    messages_normalize region ec dr (.dict d) = do
      let body1 ← model_step_messages (.str s) (.dict d)
      let body2 ← region_step region dr body1
      let body3 ← cache_step ec body2
      return Sum.inr body3 := by
  unfold messages_normalize
  rw [show pyIn "model" (.dict d) = .ok true by simp [pyIn, hm], except_bind_ok]
  simp only [Bool.not_true, Bool.false_eq_true, if_false]
  rw [show pySubKey (.dict d) "model" = .ok (.str s) by simp [pySubKey, hm],
    except_bind_ok]

/-- C2: on both surfaces, whenever normalization completes, the canonical
region of the normalized body follows the precedence route path segment
over explicit aws_region_name body field over process default; a truthy
route region overwrites an existing body field. -/
theorem C2_region_precedence (region : Option String) (ec : Bool) (dr : String)
    (d : List (String × PyVal)) :
    (∀ bc, chat_normalize region ec dr (.dict d) = .ok (Sum.inr bc) →
       ∃ y, bc = .dict y
         ∧ dGet y "aws_region_name" = some (resolved_region region d dr))
    ∧ (∀ bm, messages_normalize region ec dr (.dict d) = .ok (Sum.inr bm) →
       ∃ y, bm = .dict y
         ∧ dGet y "aws_region_name" = some (resolved_region region d dr)) := by
  constructor
  · intro bc hc
    cases hmod : dGet d "model" with
    | none => simp [chat_normalize, pyIn, hmod, except_bind_ok, except_pure_eq] at hc
    | some m =>
      cases m with
      | str s =>
        rw [chat_normalize_decomp region ec dr d s hmod] at hc
        obtain ⟨y1, he1, _, hp1⟩ := model_step_chat_ok s d hmod
        rw [he1, except_bind_ok] at hc
        obtain ⟨y2, he2, hr2, hp2⟩ := region_step_ok region dr y1
        rw [he2, except_bind_ok] at hc
        cases hc3 : cache_step ec (.dict y2) with
        | error e => rw [hc3, except_bind_error] at hc; cases hc
        | ok b3 =>
          rw [hc3, except_bind_ok] at hc
          obtain ⟨y3, rfl, hp3⟩ := cache_step_ok ec y2 b3 hc3
          cases hc4 : anthropic_step (.dict y3) with
          | error e => rw [hc4, except_bind_error] at hc; cases hc
          | ok b4 =>
            rw [hc4, except_bind_ok, except_pure_eq] at hc
            obtain ⟨y4, rfl, hp4⟩ := anthropic_step_ok y3 b4 hc4
            cases hc
            refine ⟨y4, rfl, ?_⟩
            rw [hp4 _ (by decide), hp3 _ (by decide), hr2,
              resolved_region_congr region y1 d dr (hp1 _ (by decide))]
      | int n => simp [chat_normalize_decomp region ec dr d, pyIn, hmod,
          except_bind_ok, pySubKey, model_step_chat, chat_normalize,
          except_bind_error] at hc
      | bool b => simp [chat_normalize, pyIn, hmod, except_bind_ok, pySubKey,
          model_step_chat, except_bind_error] at hc
      | null => simp [chat_normalize, pyIn, hmod, except_bind_ok, pySubKey,
          model_step_chat, except_bind_error] at hc
      | list xs => simp [chat_normalize, pyIn, hmod, except_bind_ok, pySubKey,
          model_step_chat, except_bind_error] at hc
      | dict kvs => simp [chat_normalize, pyIn, hmod, except_bind_ok, pySubKey,
          model_step_chat, except_bind_error] at hc
  · intro bm hc
    cases hmod : dGet d "model" with
    | none => simp [messages_normalize, pyIn, hmod, except_bind_ok,
        except_pure_eq] at hc
    | some m =>
      cases m with
      | str s =>
        rw [messages_normalize_decomp region ec dr d s hmod] at hc
        obtain ⟨y1, he1, hp1⟩ := model_step_messages_ok s d
        rw [he1, except_bind_ok] at hc
        obtain ⟨y2, he2, hr2, hp2⟩ := region_step_ok region dr y1
        rw [he2, except_bind_ok] at hc
        cases hc3 : cache_step ec (.dict y2) with
        | error e => rw [hc3, except_bind_error] at hc; cases hc
        | ok b3 =>
          rw [hc3, except_bind_ok, except_pure_eq] at hc
          obtain ⟨y3, rfl, hp3⟩ := cache_step_ok ec y2 b3 hc3
          cases hc
          refine ⟨y3, rfl, ?_⟩
          rw [hp3 _ (by decide), hr2,
            resolved_region_congr region y1 d dr (hp1 _ (by decide))]
      | int n => simp [messages_normalize, pyIn, hmod, except_bind_ok, pySubKey,
          model_step_messages, except_bind_error] at hc
      | bool b => simp [messages_normalize, pyIn, hmod, except_bind_ok, pySubKey,
          model_step_messages, except_bind_error] at hc
      | null => simp [messages_normalize, pyIn, hmod, except_bind_ok, pySubKey,
          model_step_messages, except_bind_error] at hc
      | list xs => simp [messages_normalize, pyIn, hmod, except_bind_ok, pySubKey,
          model_step_messages, except_bind_error] at hc
      | dict kvs => simp [messages_normalize, pyIn, hmod, except_bind_ok, pySubKey,
          model_step_messages, except_bind_error] at hc

/-- Witness for C2: the spec example, route region eu-west-1 overriding a
us-east-1 body field, on the chat surface. -/
theorem C2_region_precedence_witness :
    ∃ y, (PyVal.dict [("model", .str "bedrock/converse/m"),
            ("aws_region_name", .str "eu-west-1")]) = .dict y
      ∧ dGet y "aws_region_name"
          = some (resolved_region (some "eu-west-1")
              [("model", .str "m"), ("aws_region_name", .str "us-east-1")]
              "us-west-2") :=
  (C2_region_precedence (some "eu-west-1") false "us-west-2"
      [("model", .str "m"), ("aws_region_name", .str "us-east-1")]).1
    (.dict [("model", .str "bedrock/converse/m"),
            ("aws_region_name", .str "eu-west-1")])
    (by rfl)

/-!  C3: prompt-cache annotation. -/

theorem copy_each_dicts (ms : List (List (String × PyVal))) :
    copy_each (ms.map PyVal.dict) = .ok (ms.map PyVal.dict) := by
  induction ms with
  | nil => rfl
  | cons m rest ih => simp [copy_each, copyV, ih, except_bind_ok]

theorem tc_step_spec (d1 : List (String × PyVal)) :
    ∃ d2, (match dGet d1 "tool_calls" with
           | some (.list tcs) => dSet d1 "tool_calls" (.list (tcs.map markIfDict))
           | _ => d1) = d2
      ∧ (∀ k, k ≠ "tool_calls" → dGet d2 k = dGet d1 k)
      ∧ (∀ tcs, dGet d1 "tool_calls" = some (.list tcs) →
           dGet d2 "tool_calls" = some (.list (tcs.map markIfDict))) := by
  cases h : dGet d1 "tool_calls" with
  | none =>
    exact ⟨d1, rfl, fun _ _ => rfl, fun tcs ht => by simp [h] at ht⟩
  | some v =>
    cases v with
    | list tcs =>
      refine ⟨dSet d1 "tool_calls" (.list (tcs.map markIfDict)), rfl,
        fun k hk => dGet_dSet_ne _ _ _ _ hk, fun tcs' ht => ?_⟩
      simp only [Option.some.injEq, PyVal.list.injEq] at ht
      subst ht
      exact dGet_dSet_self _ _ _
    | str s => exact ⟨d1, rfl, fun _ _ => rfl, fun tcs ht => by simp [h] at ht⟩
    | int n => exact ⟨d1, rfl, fun _ _ => rfl, fun tcs ht => by simp [h] at ht⟩
    | bool b => exact ⟨d1, rfl, fun _ _ => rfl, fun tcs ht => by simp [h] at ht⟩
    | null => exact ⟨d1, rfl, fun _ _ => rfl, fun tcs ht => by simp [h] at ht⟩
    | dict kvs => exact ⟨d1, rfl, fun _ _ => rfl, fun tcs ht => by simp [h] at ht⟩

theorem processLastMessage_spec (last : List (String × PyVal)) :
    ∃ d2, processLastMessage (.dict last) = .ok (.dict d2)
      ∧ ((∃ s, dGet last "content" = some (.str s)) →
           dGet d2 "cache_control" = some cache_marker
           ∧ dGet d2 "content" = dGet last "content")
      ∧ (∀ items, dGet last "content" = some (.list items) →
           dGet d2 "content" = some (.list (items.map markIfDict))
           ∧ dGet d2 "cache_control" = dGet last "cache_control")
      ∧ (∀ tcs, dGet last "tool_calls" = some (.list tcs) →
           dGet d2 "tool_calls" = some (.list (tcs.map markIfDict))) := by
  cases hcont : dGet last "content" with
  | some cv =>
    cases cv with
    | str s =>
      obtain ⟨d2, he, hp, htc⟩ := tc_step_spec (dSet last "cache_control" cache_marker)
      refine ⟨d2, ?_, ?_, ?_, ?_⟩
      · simp only [processLastMessage, hcont]
        rw [he]
      · intro _
        constructor
        · rw [hp "cache_control" (by decide)]
          exact dGet_dSet_self _ _ _
        · rw [hp "content" (by decide), dGet_dSet_ne _ _ _ _ (by decide), hcont]
      · intro items hi
        simp at hi
      · intro tcs ht
        refine htc tcs ?_
        rw [dGet_dSet_ne _ _ _ _ (by decide), ht]
    | list items =>
      obtain ⟨d2, he, hp, htc⟩ :=
        tc_step_spec (dSet last "content" (.list (items.map markIfDict)))
      refine ⟨d2, ?_, ?_, ?_, ?_⟩
      · simp only [processLastMessage, hcont]
        rw [he]
      · rintro ⟨s, hs⟩
        simp at hs
      · intro items2 hi
        simp only [Option.some.injEq, PyVal.list.injEq] at hi
        subst hi
        constructor
        · rw [hp "content" (by decide)]
          exact dGet_dSet_self _ _ _
        · rw [hp "cache_control" (by decide),
            dGet_dSet_ne _ _ _ _ (by decide)]
      · intro tcs ht
        refine htc tcs ?_
        rw [dGet_dSet_ne _ _ _ _ (by decide), ht]
    | int n =>
      obtain ⟨d2, he, hp, htc⟩ := tc_step_spec last
      exact ⟨d2, by simp only [processLastMessage, hcont]; rw [he],
        fun hs => by obtain ⟨s, hs⟩ := hs; simp at hs,
        fun items hi => by simp at hi, fun tcs ht => htc tcs ht⟩
    | bool b =>
      obtain ⟨d2, he, hp, htc⟩ := tc_step_spec last
      exact ⟨d2, by simp only [processLastMessage, hcont]; rw [he],
        fun hs => by obtain ⟨s, hs⟩ := hs; simp at hs,
        fun items hi => by simp at hi, fun tcs ht => htc tcs ht⟩
    | null =>
      obtain ⟨d2, he, hp, htc⟩ := tc_step_spec last
      exact ⟨d2, by simp only [processLastMessage, hcont]; rw [he],
        fun hs => by obtain ⟨s, hs⟩ := hs; simp at hs,
        fun items hi => by simp at hi, fun tcs ht => htc tcs ht⟩
    | dict kvs =>
      obtain ⟨d2, he, hp, htc⟩ := tc_step_spec last
      exact ⟨d2, by simp only [processLastMessage, hcont]; rw [he],
        fun hs => by obtain ⟨s, hs⟩ := hs; simp at hs,
        fun items hi => by simp at hi, fun tcs ht => htc tcs ht⟩
  | none =>
    obtain ⟨d2, he, hp, htc⟩ := tc_step_spec last
    exact ⟨d2, by simp only [processLastMessage, hcont]; rw [he],
      fun hs => by obtain ⟨s, hs⟩ := hs; simp at hs,
      fun items hi => by simp at hi, fun tcs ht => htc tcs ht⟩

/-- C3: with cache mode enabled, for a non-empty sequence of message dicts,
annotation touches only the last message: earlier messages are returned
unchanged (so carry no new marker); a string-content last message gets the
marker on the message itself with its content unchanged; a list-content
last message keeps its own marker slot unchanged and instead every dict
part of its content gets the marker; every dict entry of a tool_calls list
gets the marker. -/
theorem C3_cache_last_message_only (ms : List (List (String × PyVal)))
    (h : ms ≠ []) :
    ∃ out last,
      add_cache_control_to_messages (.list (ms.map PyVal.dict)) = .ok (.list out)
      ∧ ms.getLast? = some last
      ∧ out.length = ms.length
      ∧ out.dropLast = (ms.map PyVal.dict).dropLast
      ∧ ∃ lod, out.getLast? = some (.dict lod)
        ∧ ((∃ s, dGet last "content" = some (.str s)) →
             dGet lod "cache_control" = some cache_marker
             ∧ dGet lod "content" = dGet last "content")
        ∧ (∀ items, dGet last "content" = some (.list items) →
             dGet lod "content" = some (.list (items.map markIfDict))
             ∧ dGet lod "cache_control" = dGet last "cache_control")
        ∧ (∀ tcs, dGet last "tool_calls" = some (.list tcs) →
             dGet lod "tool_calls" = some (.list (tcs.map markIfDict))) := by
  cases hl : ms.getLast? with
  | none => exact absurd (List.getLast?_eq_none_iff.mp hl) h
  | some last =>
    obtain ⟨d2, hpl, hstr, hlist, htc⟩ := processLastMessage_spec last
    have htr : py_truthy (.list (ms.map PyVal.dict)) = true := by
      cases ms with
      | nil => exact absurd rfl h
      | cons m0 rest => rfl
    have heval : add_cache_control_to_messages (.list (ms.map PyVal.dict))
        = .ok (.list ((ms.map PyVal.dict).dropLast ++ [.dict d2])) := by
      rw [add_cache_control_to_messages, htr]
      simp only [Bool.true_eq_false, if_false]
      rw [copy_each_dicts, except_bind_ok, List.getLast?_map, hl]
      simp only [Option.map_some']
      rw [hpl, except_bind_ok]
    refine ⟨(ms.map PyVal.dict).dropLast ++ [.dict d2], last, heval, rfl, ?_, ?_,
      d2, ?_, hstr, hlist, htc⟩
    · have hpos : 0 < ms.length := List.length_pos.mpr h
      simp only [List.length_append, List.length_dropLast, List.length_map,
        List.length_singleton]
      omega
    · exact List.dropLast_concat
    · exact List.getLast?_concat _

/-- Witness for C3 at a three-message conversation whose last message has
string content. -/
theorem C3_cache_last_message_only_witness :
    ∃ out last,
      add_cache_control_to_messages (.list ([
          [("role", PyVal.str "user"), ("content", PyVal.str "hi")],
          [("role", PyVal.str "assistant"), ("content", PyVal.str "yo")],
          [("role", PyVal.str "user"), ("content", PyVal.str "q")]].map PyVal.dict))
        = .ok (.list out)
      ∧ [[("role", PyVal.str "user"), ("content", PyVal.str "hi")],
         [("role", PyVal.str "assistant"), ("content", PyVal.str "yo")],
         [("role", PyVal.str "user"), ("content", PyVal.str "q")]].getLast?
          = some last
      ∧ out.length = 3
      ∧ out.dropLast = ([
          [("role", PyVal.str "user"), ("content", PyVal.str "hi")],
          [("role", PyVal.str "assistant"), ("content", PyVal.str "yo")],
          [("role", PyVal.str "user"), ("content", PyVal.str "q")]].map
            PyVal.dict).dropLast
      ∧ ∃ lod, out.getLast? = some (.dict lod)
        ∧ ((∃ s, dGet last "content" = some (.str s)) →
             dGet lod "cache_control" = some cache_marker
             ∧ dGet lod "content" = dGet last "content")
        ∧ (∀ items, dGet last "content" = some (.list items) →
             dGet lod "content" = some (.list (items.map markIfDict))
             ∧ dGet lod "cache_control" = dGet last "cache_control")
        ∧ (∀ tcs, dGet last "tool_calls" = some (.list tcs) →
             dGet lod "tool_calls" = some (.list (tcs.map markIfDict))) := by
  have := C3_cache_last_message_only [
      [("role", PyVal.str "user"), ("content", PyVal.str "hi")],
      [("role", PyVal.str "assistant"), ("content", PyVal.str "yo")],
      [("role", PyVal.str "user"), ("content", PyVal.str "q")]] (by simp)
  exact this

theorem anthropic_step_drops (x : List (String × PyVal)) (s : String)
    (hm : dGet x "model" = some (.str s))
    (hc : containsSub "anthropic" (str_lower s) = true)
    (ht : (dGet x "temperature").isSome = true)
    (hp : (dGet x "top_p").isSome = true) :
    anthropic_step (.dict x) = .ok (.dict (dPop x "top_p")) := by
  simp [anthropic_step, pyIn, hm, pySubKey, hc, ht, hp, pyPopKey, except_bind_ok]

/-- C4 amended: the anthropic temperature/top_p fix-up is not part of the
shared normalization path; it exists on the chat-completions surface only.
There, a normalized body whose model names the anthropic family and which
carries both parameters loses top_p and keeps temperature; on the messages
surface the same request keeps both parameters unchanged. -/
theorem C4_top_p_drop_chat_only :
    (∀ (region : Option String) (ec : Bool) (dr : String)
       (d : List (String × PyVal)) (s : String) (tv pv bc : PyVal),
       dGet d "model" = some (.str s) →
       containsSub "anthropic" (str_lower (chat_model_result s)) = true →
       dGet d "temperature" = some tv →
       dGet d "top_p" = some pv →
       chat_normalize region ec dr (.dict d) = .ok (Sum.inr bc) →
       ∃ y, bc = .dict y ∧ dGet y "top_p" = Option.none
         ∧ dGet y "temperature" = some tv)
    ∧ (∀ (region : Option String) (ec : Bool) (dr : String)
       (d : List (String × PyVal)) (s : String) (tv pv bm : PyVal),
       dGet d "model" = some (.str s) →
       containsSub "anthropic" (str_lower s) = true →
       dGet d "temperature" = some tv →
       dGet d "top_p" = some pv →
       messages_normalize region ec dr (.dict d) = .ok (Sum.inr bm) →
       ∃ y, bm = .dict y ∧ dGet y "top_p" = some pv
         ∧ dGet y "temperature" = some tv) := by
  constructor
  · intro region ec dr d s tv pv bc hm hanth htv hpv hc
    rw [chat_normalize_decomp region ec dr d s hm] at hc
    obtain ⟨y1, he1, hm1, hp1⟩ := model_step_chat_ok s d hm
    rw [he1, except_bind_ok] at hc
    obtain ⟨y2, he2, hr2, hp2⟩ := region_step_ok region dr y1
    rw [he2, except_bind_ok] at hc
    cases hc3 : cache_step ec (.dict y2) with
    | error e => rw [hc3, except_bind_error] at hc; cases hc
    | ok b3 =>
      rw [hc3, except_bind_ok] at hc
      obtain ⟨y3, rfl, hp3⟩ := cache_step_ok ec y2 b3 hc3
      have hm3 : dGet y3 "model" = some (.str (chat_model_result s)) := by
        rw [hp3 _ (by decide), hp2 _ (by decide), hm1]
      have ht3 : dGet y3 "temperature" = some tv := by
        rw [hp3 _ (by decide), hp2 _ (by decide), hp1 _ (by decide), htv]
      have hpp3 : dGet y3 "top_p" = some pv := by
        rw [hp3 _ (by decide), hp2 _ (by decide), hp1 _ (by decide), hpv]
      rw [anthropic_step_drops y3 (chat_model_result s) hm3 hanth
          (by rw [ht3]; rfl) (by rw [hpp3]; rfl), except_bind_ok,
        except_pure_eq] at hc
      cases hc
      refine ⟨dPop y3 "top_p", rfl, dGet_dPop_self _ _, ?_⟩
      rw [dGet_dPop_ne _ _ _ (by decide), ht3]
  · intro region ec dr d s tv pv bm hm hanth htv hpv hc
    rw [messages_normalize_decomp region ec dr d s hm] at hc
    obtain ⟨y1, he1, hp1⟩ := model_step_messages_ok s d
    rw [he1, except_bind_ok] at hc
    obtain ⟨y2, he2, hr2, hp2⟩ := region_step_ok region dr y1
    rw [he2, except_bind_ok] at hc
    cases hc3 : cache_step ec (.dict y2) with
    | error e => rw [hc3, except_bind_error] at hc; cases hc
    | ok b3 =>
      rw [hc3, except_bind_ok, except_pure_eq] at hc
      obtain ⟨y3, rfl, hp3⟩ := cache_step_ok ec y2 b3 hc3
      cases hc
      refine ⟨y3, rfl, ?_, ?_⟩
      · rw [hp3 _ (by decide), hp2 _ (by decide), hp1 _ (by decide), hpv]
      · rw [hp3 _ (by decide), hp2 _ (by decide), hp1 _ (by decide), htv]

/-- Counterexample to C4 as stated: on the messages surface, a request with
an anthropic-family model carrying both temperature and top_p is normalized
with top_p retained, not dropped. -/
theorem C4_counterexample :
    messages_normalize Option.none false "us-west-2"
        (.dict [("model", .str "anthropic.claude-3"), ("temperature", .int 1),
                ("top_p", .int 1)])
      = .ok (Sum.inr (.dict [("model", .str "bedrock/anthropic.claude-3"),
          ("temperature", .int 1), ("top_p", .int 1),
          ("aws_region_name", .str "us-west-2")]))
    ∧ containsSub "anthropic" (str_lower "bedrock/anthropic.claude-3") = true
    ∧ dGet [("model", PyVal.str "bedrock/anthropic.claude-3"),
          ("temperature", PyVal.int 1), ("top_p", PyVal.int 1),
          ("aws_region_name", PyVal.str "us-west-2")] "top_p"
        = some (.int 1) :=
  ⟨rfl, rfl, rfl⟩

/-- Witness for the amended C4 on both surfaces at a concrete anthropic
request carrying temperature and top_p. -/
theorem C4_top_p_drop_chat_only_witness :
    (∃ y, (PyVal.dict [("model", .str "bedrock/converse/anthropic.claude-3"),
        ("temperature", .int 1), ("aws_region_name", .str "us-west-2")])
          = .dict y
      ∧ dGet y "top_p" = Option.none
      ∧ dGet y "temperature" = some (.int 1))
    ∧ (∃ y, (PyVal.dict [("model", .str "bedrock/anthropic.claude-3"),
        ("temperature", .int 1), ("top_p", .int 1),
        ("aws_region_name", .str "us-west-2")]) = .dict y
      ∧ dGet y "top_p" = some (.int 1)
      ∧ dGet y "temperature" = some (.int 1)) :=
  ⟨C4_top_p_drop_chat_only.1 Option.none false "us-west-2"
      [("model", .str "anthropic.claude-3"), ("temperature", .int 1),
       ("top_p", .int 1)]
      "anthropic.claude-3" (.int 1) (.int 1) _ rfl rfl rfl rfl rfl,
   C4_top_p_drop_chat_only.2 Option.none false "us-west-2"
      [("model", .str "anthropic.claude-3"), ("temperature", .int 1),
       ("top_p", .int 1)]
      "anthropic.claude-3" (.int 1) (.int 1) _ rfl rfl rfl rfl rfl⟩

/-!  C6 and C7: terminal behavior of the stream relay. -/

theorem relay_go_no_abort (fresh : Nat → String)
    (cs : List (List (String × PyVal))) (te : Option PyExn) (tid : PyVal)
    (n : Nat) (h : relay_aborts fresh cs tid n = false) :
    ∃ ds, relay_go fresh cs te tid n
        = ds ++ (match te with
                 | Option.none => [Frame.done]
                 | some e => [Frame.err e.message e.ty])
      ∧ ds.length = cs.length ∧ ∀ f ∈ ds, ∃ c, f = Frame.data c := by
  induction cs generalizing tid n with
  | nil => exact ⟨[], by simp [relay_go], rfl, by simp⟩
  | cons c rest ih =>
    unfold relay_aborts at h
    cases hpc : pin_chunk (fresh n) tid c with
    | error e => rw [hpc] at h; cases h
    | ok p =>
      obtain ⟨c', tid'⟩ := p
      rw [hpc] at h
      obtain ⟨ds, hds, hlen, hdata⟩ := ih tid' (n + 1) h
      refine ⟨Frame.data c' :: ds, ?_, by simp [hlen], ?_⟩
      · simp only [relay_go, hpc, hds, List.cons_append]
      · intro f hf
        cases hf with
        | head => exact ⟨c', rfl⟩
        | tail _ hf => exact hdata f hf

/-- C6: when the upstream chat stream yields its chunks and then raises
(including before the first chunk, and including a failing acompletion
call), the relay emits exactly the data frames for the yielded chunks
followed by exactly one terminal error frame carrying the message and
classification, and nothing after it; the messages relay behaves the same
with raw chunks.  The relay is a function of the single backend call
outcome it is given, so no second backend or credential attempt exists. -/
theorem C6_stream_error_frames :
    (∀ (fresh : Nat → String) (cs : List (List (String × PyVal))) (e : PyExn),
       relay_aborts fresh cs (.str "") 0 = false →
       ∃ ds, generate_stream_chat fresh (.ok ⟨cs, some e⟩)
           = ds ++ [Frame.err e.message e.ty]
         ∧ ds.length = cs.length ∧ ∀ f ∈ ds, ∃ c, f = Frame.data c)
    ∧ (∀ (fresh : Nat → String) (e : PyExn),
       generate_stream_chat fresh (.error e) = [Frame.err e.message e.ty])
    ∧ (∀ (ss : List String) (e : PyExn),
       generate_stream_messages (.ok ⟨ss, some e⟩)
         = ss.map Frame.raw ++ [Frame.err e.message e.ty])
    ∧ (∀ e : PyExn,
       generate_stream_messages (.error e) = [Frame.err e.message e.ty]) :=
  ⟨fun fresh cs e h => relay_go_no_abort fresh cs (some e) (.str "") 0 h,
   fun _ _ => rfl, fun _ _ => rfl, fun _ => rfl⟩

/-- Witness for C6 at a one-chunk upstream stream followed by a raised
RuntimeError. -/
theorem C6_stream_error_frames_witness :
    ∃ ds, generate_stream_chat (fun _ => "u")
        (.ok ⟨[[("choices", .list [.dict [("delta", .dict [])]])]],
              some ⟨"boom", "RuntimeError"⟩⟩)
        = ds ++ [Frame.err "boom" "RuntimeError"]
      ∧ ds.length = 1 ∧ ∀ f ∈ ds, ∃ c, f = Frame.data c :=
  C6_stream_error_frames.1 (fun _ => "u")
    [[("choices", .list [.dict [("delta", .dict [])]])]]
    ⟨"boom", "RuntimeError"⟩ rfl

/-- C7: when the upstream stream is exhausted without error, the chat relay
emits exactly one terminal done frame after the data frames (and that frame
renders as the literal data: [DONE] plus a blank line), while the messages
relay emits no terminal marker at all: its outbound sequence is exactly the
raw chunks. -/
theorem C7_stream_done_frames :
    (∀ (fresh : Nat → String) (cs : List (List (String × PyVal))),
       relay_aborts fresh cs (.str "") 0 = false →
       ∃ ds, generate_stream_chat fresh (.ok ⟨cs, Option.none⟩)
           = ds ++ [Frame.done]
         ∧ ds.length = cs.length ∧ ∀ f ∈ ds, ∃ c, f = Frame.data c)
    ∧ (∀ ss : List String,
       generate_stream_messages (.ok ⟨ss, Option.none⟩) = ss.map Frame.raw
       ∧ ∀ f ∈ generate_stream_messages (.ok ⟨ss, Option.none⟩),
           ∃ s, f = Frame.raw s)
    ∧ render_frame Frame.done = "data: [DONE]\n\n" := by
  refine ⟨fun fresh cs h => relay_go_no_abort fresh cs Option.none (.str "") 0 h,
    fun ss => ⟨by simp [generate_stream_messages], ?_⟩, rfl⟩
  intro f hf
  simp only [generate_stream_messages, List.append_nil] at hf
  obtain ⟨s, _, rfl⟩ := List.mem_map.mp hf
  exact ⟨s, rfl⟩

/-- Witness for C7 at a one-chunk upstream stream that ends cleanly. -/
theorem C7_stream_done_frames_witness :
    ∃ ds, generate_stream_chat (fun _ => "u")
        (.ok ⟨[[("choices", .list [.dict [("delta", .dict [])]])]],
              Option.none⟩)
        = ds ++ [Frame.done]
      ∧ ds.length = 1 ∧ ∀ f ∈ ds, ∃ c, f = Frame.data c :=
  C7_stream_done_frames.1 (fun _ => "u")
    [[("choices", .list [.dict [("delta", .dict [])]])]] rfl

/-!  C5: tool-call id pinning in the chat stream relay. -/

theorem tc_shape_inv (c : List (String × PyVal)) (e0 : List (String × PyVal))
    (h : tc_shape c = some e0) :
    ∃ d0 cs1 dd ts1,
      dGet c "choices" = some (.list (PyVal.dict d0 :: cs1))
      ∧ dGet d0 "delta" = some (.dict dd)
      ∧ dGet dd "tool_calls" = some (.list (PyVal.dict e0 :: ts1)) := by
  unfold tc_shape at h
  split at h
  · split at h
    · split at h
      · injection h with h2
        subst h2
        exact ⟨_, _, _, _, by assumption, by assumption, by assumption⟩
      · cases h
    · cases h
  · cases h

theorem pin_condition_wf (c d0 dd e0 : List (String × PyVal))
    (cs1 ts1 : List PyVal)
    (hch : dGet c "choices" = some (.list (PyVal.dict d0 :: cs1)))
    (hdl : dGet d0 "delta" = some (.dict dd))
    (htc : dGet dd "tool_calls" = some (.list (PyVal.dict e0 :: ts1))) :
    pin_condition c = .ok (.list (PyVal.dict e0 :: ts1)) := by
  simp [pin_condition, hch, hdl, htc, pySubNat, pyGetDefault, except_bind_ok]

theorem pin_read_wf (f : String) (c d0 dd e0 : List (String × PyVal))
    (cs1 ts1 : List PyVal)
    (hch : dGet c "choices" = some (.list (PyVal.dict d0 :: cs1)))
    (hdl : dGet d0 "delta" = some (.dict dd))
    (htc : dGet dd "tool_calls" = some (.list (PyVal.dict e0 :: ts1))) :
    pin_read f c = .ok ((dGet e0 "id").getD (.str f)) := by
  simp [pin_read, pySubKey, hch, hdl, htc, pySubNat, pyGetDefault, except_bind_ok]

theorem pin_assign_wf (c d0 dd e0 : List (String × PyVal))
    (cs1 ts1 : List PyVal) (tid2 : PyVal)
    (hch : dGet c "choices" = some (.list (PyVal.dict d0 :: cs1)))
    (hdl : dGet d0 "delta" = some (.dict dd))
    (htc : dGet dd "tool_calls" = some (.list (PyVal.dict e0 :: ts1))) :
    pin_assign c tid2 = .ok (stamp_id c tid2) := by
  simp [pin_assign, stamp_id, hch, hdl, htc]

theorem pin_chunk_wf (f : String) (tid : PyVal)
    (c e0 : List (String × PyVal)) (h : tc_shape c = some e0) :
    pin_chunk f tid c
      = .ok (stamp_id c (if py_truthy tid then tid
                         else (dGet e0 "id").getD (.str f)),
             if py_truthy tid then tid
             else (dGet e0 "id").getD (.str f)) := by
  obtain ⟨d0, cs1, dd, ts1, hch, hdl, htc⟩ := tc_shape_inv c e0 h
  have hcond := pin_condition_wf c d0 dd e0 cs1 ts1 hch hdl htc
  have hread := pin_read_wf f c d0 dd e0 cs1 ts1 hch hdl htc
  have htr : py_truthy (.list (PyVal.dict e0 :: ts1)) = true := rfl
  by_cases htid : py_truthy tid
  · simp [pin_chunk, hcond, htid, htr,
      pin_assign_wf c d0 dd e0 cs1 ts1 tid hch hdl htc]
  · simp [pin_chunk, hcond, htid, htr, hread,
      pin_assign_wf c d0 dd e0 cs1 ts1 ((dGet e0 "id").getD (.str f)) hch hdl htc]

theorem tc_shape_not_skip (c e0 : List (String × PyVal))
    (h : tc_shape c = some e0) : pin_skip c = false := by
  obtain ⟨d0, cs1, dd, ts1, hch, hdl, htc⟩ := tc_shape_inv c e0 h
  simp [pin_skip, pin_condition_wf c d0 dd e0 cs1 ts1 hch hdl htc, py_truthy]

theorem pin_chunk_skip (f : String) (tid : PyVal) (c : List (String × PyVal))
    (h : pin_skip c = true) : pin_chunk f tid c = .ok (c, tid) := by
  unfold pin_skip at h
  unfold pin_chunk
  cases hpc : pin_condition c with
  | ok v =>
    rw [hpc] at h
    simp only [Bool.not_eq_true'] at h
    simp [h]
  | error e =>
    rw [hpc] at h
    simp [show catchable e = true from h]

theorem relay_go_spec (fresh : Nat → String)
    (cs : List (List (String × PyVal))) (tid : PyVal) (n : Nat)
    (hcs : ∀ c ∈ cs, (tc_shape c).isSome = true ∨ pin_skip c = true) :
    relay_go fresh cs Option.none tid n
      = (relay_spec fresh cs tid n).map Frame.data ++ [Frame.done] := by
  induction cs generalizing tid n with
  | nil => simp [relay_go, relay_spec]
  | cons c rest ih =>
    have hrest : ∀ c' ∈ rest, (tc_shape c').isSome = true ∨ pin_skip c' = true :=
      fun c' h' => hcs c' (List.mem_cons_of_mem _ h')
    cases hcs c (List.mem_cons_self _ _) with
    | inl hwf =>
      obtain ⟨e0, he0⟩ := Option.isSome_iff_exists.mp hwf
      simp only [relay_go, relay_spec, he0, pin_chunk_wf (fresh n) tid c e0 he0]
      simp [ih _ _ hrest]
    | inr hskip =>
      have hshape : tc_shape c = Option.none := by
        cases hts : tc_shape c with
        | none => rfl
        | some e0 => rw [tc_shape_not_skip c e0 hts] at hskip; cases hskip
      simp only [relay_go, relay_spec, hshape,
        pin_chunk_skip (fresh n) tid c hskip]
      simp [ih _ _ hrest]

theorem relay_spec_pinned (fresh : Nat → String)
    (cs : List (List (String × PyVal))) (tid : PyVal) (n : Nat)
    (h : py_truthy tid = true) :
    relay_spec fresh cs tid n
      = cs.map (fun c => match tc_shape c with
                         | some _ => stamp_id c tid
                         | Option.none => c) := by
  induction cs generalizing n with
  | nil => rfl
  | cons c rest ih =>
    cases hts : tc_shape c with
    | some e0 => simp [relay_spec, hts, h, ih]
    | none => simp [relay_spec, hts, ih]

/-- C5 amended: over any upstream chunk sequence in which every chunk either
carries a well-formed tool-call list (choices, delta, tool_calls and first
entry properly shaped) or is skipped by the pinning guard (falsy guard or a
caught missing-key or index error), the relay behaves exactly as the
pinning state machine relay_spec: the pin is set at the first well-formed
tool-call chunk seen while the state is falsy, to that entry's id when the
id key is present (even when empty, in which case pinning effectively
retries) and to the freshly generated uuid of that chunk when the id key is
absent; every well-formed tool-call chunk, the pinning one included, is
emitted with its first entry id overwritten by the current pin, and once
the pin is truthy it never changes, so all subsequent well-formed tool-call
chunks carry exactly the pinned id; skipped chunks are emitted unchanged. -/
theorem C5_pinning_amended :
    (∀ (fresh : Nat → String) (cs : List (List (String × PyVal))),
       (∀ c ∈ cs, (tc_shape c).isSome = true ∨ pin_skip c = true) →
       generate_stream_chat fresh (.ok ⟨cs, Option.none⟩)
         = (relay_spec fresh cs (.str "") 0).map Frame.data ++ [Frame.done])
    ∧ (∀ (fresh : Nat → String) (cs : List (List (String × PyVal)))
         (tid : PyVal) (n : Nat), py_truthy tid = true →
       relay_spec fresh cs tid n
         = cs.map (fun c => match tc_shape c with
                            | some _ => stamp_id c tid
                            | Option.none => c)) :=
  ⟨fun fresh cs h => relay_go_spec fresh cs (.str "") 0 h,
   fun fresh cs tid n h => relay_spec_pinned fresh cs tid n h⟩

/-- Counterexample to C5 as stated: when the first tool-call chunk has no id
key at all, the code pins a freshly generated uuid from that chunk, not the
first non-empty id of the stream; the later chunk carrying id abc is
overwritten with the generated uuid, and the chunk after it (a subsequent
chunk carrying a tool-call entry, after the first chunk with a non-empty
id) carries the generated uuid rather than abc as the claim requires. -/
theorem C5_counterexample :
    (generate_stream_chat (fun _ => "f47ac10b58cc4372a5670e02b2c3d479")
        (.ok ⟨[
          [("choices", .list [.dict [("delta", .dict [("tool_calls",
              .list [.dict [("type", .str "function")]])])]])],
          [("choices", .list [.dict [("delta", .dict [("tool_calls",
              .list [.dict [("id", .str "abc")]])])]])],
          [("choices", .list [.dict [("delta", .dict [("tool_calls",
              .list [.dict [("id", .str "")]])])]])]], Option.none⟩)).map
        relayed_tool_id
      = [some (.str "f47ac10b58cc4372a5670e02b2c3d479"),
         some (.str "f47ac10b58cc4372a5670e02b2c3d479"),
         some (.str "f47ac10b58cc4372a5670e02b2c3d479"),
         Option.none]
    ∧ "f47ac10b58cc4372a5670e02b2c3d479" ≠ "abc" := ⟨rfl, by decide⟩

/-- Witness for the amended C5 at the documented example stream: chunk 1
carries tool-call id abc, chunk 2 carries an empty id. -/
theorem C5_pinning_amended_witness :
    generate_stream_chat (fun _ => "f47ac10b58cc4372a5670e02b2c3d479")
        (.ok ⟨[
          [("choices", .list [.dict [("delta", .dict [("tool_calls",
              .list [.dict [("id", .str "abc")]])])]])],
          [("choices", .list [.dict [("delta", .dict [("tool_calls",
              .list [.dict [("id", .str "")]])])]])]], Option.none⟩)
      = (relay_spec (fun _ => "f47ac10b58cc4372a5670e02b2c3d479")
          [[("choices", .list [.dict [("delta", .dict [("tool_calls",
              .list [.dict [("id", .str "abc")]])])]])],
           [("choices", .list [.dict [("delta", .dict [("tool_calls",
              .list [.dict [("id", .str "")]])])]])]]
          (.str "") 0).map Frame.data ++ [Frame.done] :=
  C5_pinning_amended.1 (fun _ => "f47ac10b58cc4372a5670e02b2c3d479")
    [[("choices", .list [.dict [("delta", .dict [("tool_calls",
        .list [.dict [("id", .str "abc")]])])]])],
     [("choices", .list [.dict [("delta", .dict [("tool_calls",
        .list [.dict [("id", .str "")]])])]])]]
    (by decide)

/-!  C8: the credential dispatcher (modelled from the spec, section 4.3). -/

theorem dispatch_go_first_success {α : Type}
    (call : CredentialSet → Except PyExn α)
    (pre post : List CredentialSet) (c : CredentialSet) (p : α)
    (errOf : CredentialSet → PyExn)
    (hpre : ∀ c' ∈ pre, call c' = .error (errOf c'))
    (hc : call c = .ok p) (last : Option (PyExn × CredentialSet)) :
    dispatch_go call (pre ++ c :: post) last
      = (.success p, pre ++ [c],
         match pre.getLast? with
         | some cL => some (errOf cL, cL)
         | Option.none => last) := by
  induction pre generalizing last with
  | nil => simp [dispatch_go, hc]
  | cons c0 pre' ih =>
    have h0 : call c0 = .error (errOf c0) := hpre c0 (List.mem_cons_self _ _)
    have hpre' : ∀ c' ∈ pre', call c' = .error (errOf c') :=
      fun c' h' => hpre c' (List.mem_cons_of_mem _ h')
    simp only [List.cons_append, dispatch_go, h0, List.append_eq]
    rw [ih hpre' (some (errOf c0, c0))]
    cases pre' with
    | nil => simp
    | cons c1 pre'' => rfl

theorem dispatch_go_all_fail {α : Type}
    (call : CredentialSet → Except PyExn α)
    (creds : List CredentialSet) (errOf : CredentialSet → PyExn)
    (h : ∀ c' ∈ creds, call c' = .error (errOf c'))
    (last : Option (PyExn × CredentialSet)) :
    dispatch_go call creds last
      = (.failure (match creds.getLast? with
                   | some cL => some (errOf cL, cL)
                   | Option.none => last),
         creds,
         match creds.getLast? with
         | some cL => some (errOf cL, cL)
         | Option.none => last) := by
  induction creds generalizing last with
  | nil => simp [dispatch_go]
  | cons c0 rest ih =>
    simp only [dispatch_go, h c0 (List.mem_cons_self _ _)]
    rw [ih (fun c' h' => h c' (List.mem_cons_of_mem _ h')) (some (errOf c0, c0))]
    cases rest with
    | nil => simp
    | cons c1 rest' => rfl

/-- C8 (dispatcher modelled from the spec, the code being absent from src/):
over any shuffled credential order, the dispatcher attempts exactly one
call per credential in order, stops at the first success (the credentials
attempted are exactly the failing ones before it plus the succeeding one,
and the recorded failure at that point is the most recent failing
credential with its error, or nothing when the first credential succeeds);
when every credential fails, the outcome is a failure carrying only the
last credential's error after attempting every credential exactly once. -/
theorem C8_dispatch_fallback :
    (∀ (α : Type) (shuffle : List CredentialSet → List CredentialSet)
       (creds pre post : List CredentialSet) (c : CredentialSet)
       (call : CredentialSet → Except PyExn α) (p : α)
       (errOf : CredentialSet → PyExn),
       shuffle creds = pre ++ c :: post →
       (∀ c' ∈ pre, call c' = .error (errOf c')) →
       call c = .ok p →
       dispatch shuffle creds call
         = (.success p, pre ++ [c],
            (pre.getLast?).map (fun cL => (errOf cL, cL))))
    ∧ (∀ (α : Type) (shuffle : List CredentialSet → List CredentialSet)
       (creds : List CredentialSet) (call : CredentialSet → Except PyExn α)
       (errOf : CredentialSet → PyExn) (cL : CredentialSet),
       (∀ c' ∈ shuffle creds, call c' = .error (errOf c')) →
       (shuffle creds).getLast? = some cL →
       dispatch shuffle creds call
         = (.failure (some (errOf cL, cL)), shuffle creds,
            some (errOf cL, cL))) := by
  constructor
  · intro α shuffle creds pre post c call p errOf hs hpre hc
    rw [dispatch, hs, dispatch_go_first_success call pre post c p errOf hpre hc]
    cases pre.getLast? <;> rfl
  · intro α shuffle creds call errOf cL hall hlast
    rw [dispatch, dispatch_go_all_fail call (shuffle creds) errOf hall, hlast]

/-- Witness for C8: three credentials in shuffled order where the first two
fail and the third succeeds; the dispatcher returns the success, attempted
all three once, and recorded only the second failure. -/
theorem C8_dispatch_fallback_witness :
    dispatch (fun l => l)
        [⟨"k1", "s1"⟩, ⟨"k2", "s2"⟩, ⟨"k3", "s3"⟩]
        (fun c => if c.id_token = "k3" then Except.ok 7
                  else .error ⟨"denied " ++ c.id_token, "ClientError"⟩)
      = (.success 7, [⟨"k1", "s1"⟩, ⟨"k2", "s2"⟩, ⟨"k3", "s3"⟩],
         some (⟨"denied k2", "ClientError"⟩, ⟨"k2", "s2"⟩)) :=
  C8_dispatch_fallback.1 Nat (fun l => l)
    [⟨"k1", "s1"⟩, ⟨"k2", "s2"⟩, ⟨"k3", "s3"⟩]
    [⟨"k1", "s1"⟩, ⟨"k2", "s2"⟩] [] ⟨"k3", "s3"⟩
    (fun c => if c.id_token = "k3" then Except.ok 7
              else .error ⟨"denied " ++ c.id_token, "ClientError"⟩)
    7 (fun c => ⟨"denied " ++ c.id_token, "ClientError"⟩)
    rfl (by intro c' h'; fin_cases h' <;> rfl) rfl

/-!  C9: the model catalog handler swallows backend failures. -/

/-- C9: evaluating list_models_handler at a region whose catalog client
raises shows the handler returning None (a 200 response whose body is the
JSON literal null), not the documented error body shape: the except clause
only logs and falls through. -/
theorem C9_list_models_swallows_error :
    list_models_handler (some "us-east-1") "us-west-2"
        (fun _ =>
          ⟨.error ⟨"Could not connect to the endpoint URL",
             "EndpointConnectionError"⟩,
           .error ⟨"Could not connect to the endpoint URL",
             "EndpointConnectionError"⟩⟩)
      = Option.none := rfl

/-!  C10: the heap-level frame property of add_cache_control_to_messages. -/

theorem heap_alloc_ext (h0 h1 : Heap) (d : List (String × HVal))
    (hext : h0.length ≤ h1.length ∧ ∀ a, a < h0.length → h1[a]? = h0[a]?) :
    h0.length ≤ (halloc h1 d).1.length
    ∧ ∀ a, a < h0.length → (halloc h1 d).1[a]? = h0[a]? := by
  constructor
  · have := hext.1
    simp only [halloc, List.length_append, List.length_singleton]
    omega
  · intro a ha
    simp only [halloc]
    rw [List.getElem?_append_left (lt_of_lt_of_le ha hext.1)]
    exact hext.2 a ha

theorem heap_write_ext (h0 h2 : Heap) (aL : Nat) (d : List (String × HVal))
    (hext : h0.length ≤ h2.length ∧ ∀ a, a < h0.length → h2[a]? = h0[a]?)
    (haL : h0.length ≤ aL) :
    h0.length ≤ (hwrite h2 aL d).length
    ∧ ∀ a, a < h0.length → (hwrite h2 aL d)[a]? = h0[a]? := by
  constructor
  · have := hext.1
    simp only [hwrite, List.length_set]
    omega
  · intro a ha
    rw [hwrite, List.getElem?_set_ne (by omega)]
    exact hext.2 a ha

theorem mark_items_ext (h0 : Heap) (items : List HVal) :
    ∀ h, (h0.length ≤ h.length ∧ ∀ a, a < h0.length → h[a]? = h0[a]?) →
      h0.length ≤ (mark_items h items).1.length
      ∧ ∀ a, a < h0.length → (mark_items h items).1[a]? = h0[a]? := by
  induction items with
  | nil => intro h hh; simpa [mark_items] using hh
  | cons v rest ih =>
    intro h hh
    cases v with
    | ref b =>
      simp only [mark_items]
      refine ih _ ⟨?_, ?_⟩
      · have := hh.1
        simp only [halloc, hwrite, List.length_set, List.length_append,
          List.length_singleton]
        omega
      · intro a ha
        have hb := hh.1
        simp only [halloc, hwrite]
        rw [List.getElem?_set_ne (by omega)]
        rw [List.getElem?_append_left
          (by simp only [List.length_append, List.length_singleton]; omega)]
        rw [List.getElem?_append_left (by omega)]
        exact hh.2 a ha
    | str s => simp only [mark_items]; exact ih h hh
    | int n => simp only [mark_items]; exact ih h hh
    | bool b => simp only [mark_items]; exact ih h hh
    | null => simp only [mark_items]; exact ih h hh
    | list xs => simp only [mark_items]; exact ih h hh

theorem copy_messages_ext (h0 : Heap) (ms : List Nat) :
    ∀ h, (h0.length ≤ h.length ∧ ∀ a, a < h0.length → h[a]? = h0[a]?) →
      (h0.length ≤ (copy_messages h ms).1.length
       ∧ ∀ a, a < h0.length → (copy_messages h ms).1[a]? = h0[a]?)
      ∧ (copy_messages h ms).2.length = ms.length
      ∧ ∀ a ∈ (copy_messages h ms).2, h.length ≤ a := by
  induction ms with
  | nil =>
    intro h hh
    exact ⟨hh, rfl, by simp [copy_messages]⟩
  | cons a0 rest ih =>
    intro h hh
    have hstep : h0.length ≤ (h ++ [hread h a0]).length
        ∧ ∀ a, a < h0.length → (h ++ [hread h a0])[a]? = h0[a]? := by
      constructor
      · have := hh.1
        simp only [List.length_append, List.length_singleton]
        omega
      · intro a ha
        rw [List.getElem?_append_left (lt_of_lt_of_le ha hh.1)]
        exact hh.2 a ha
    obtain ⟨ihext, ihlen, ihaddr⟩ := ih (h ++ [hread h a0]) hstep
    simp only [copy_messages, halloc]
    refine ⟨ihext, by simp [ihlen], ?_⟩
    intro a ha
    cases ha with
    | head => exact le_refl _
    | tail _ hmem =>
      refine le_trans ?_ (ihaddr a hmem)
      simp

theorem add_cache_heap_list (h : Heap) (ms : List Nat) :
    (add_cache_control_to_messages_heap h ms).2
      = match ms with
        | [] => ms
        | _ :: _ => (copy_messages h ms).2 := by
  cases ms with
  | nil => rfl
  | cons m0 mrest =>
    simp only [add_cache_control_to_messages_heap]
    split <;> rfl

/-- C10: the heap-level embedding never mutates pre-existing objects: every
address that existed before the call still holds exactly the same dict
afterwards (so the input list of message dicts, and every dict reachable
before the call, is unchanged); an empty input is returned as is with the
heap untouched; a non-empty input yields a list of the same length made
entirely of freshly allocated addresses, hence a new list of new dicts. -/
theorem C10_cache_never_mutates (h : Heap) (ms : List Nat) :
    (h.length ≤ (add_cache_control_to_messages_heap h ms).1.length
     ∧ ∀ a, a < h.length → (add_cache_control_to_messages_heap h ms).1[a]? = h[a]?)
    ∧ (ms = [] → add_cache_control_to_messages_heap h ms = (h, ms))
    ∧ (ms ≠ [] →
        (add_cache_control_to_messages_heap h ms).2.length = ms.length
        ∧ ∀ a ∈ (add_cache_control_to_messages_heap h ms).2, h.length ≤ a) := by
  cases ms with
  | nil =>
    exact ⟨⟨le_refl _, fun a ha => rfl⟩, fun _ => rfl, fun hne => absurd rfl hne⟩
  | cons m0 mrest =>
    have base : h.length ≤ h.length ∧ ∀ a, a < h.length → h[a]? = h[a]? :=
      ⟨le_refl _, fun _ _ => rfl⟩
    obtain ⟨cpext, cplen, cpaddr⟩ := copy_messages_ext h (m0 :: mrest) h base
    refine ⟨?_, fun hc => absurd hc (List.cons_ne_nil _ _), fun _ => ?_⟩
    · simp only [add_cache_control_to_messages_heap]
      split
      · exact cpext
      · rename_i aL hL
        have haL : h.length ≤ aL := cpaddr aL (List.mem_of_mem_getLast? hL)
        refine heap_write_ext h _ aL _ ?_ haL
        split
        · refine mark_items_ext h _ _ ?_
          split
          · exact heap_alloc_ext h _ _ cpext
          · exact mark_items_ext h _ _ cpext
          · exact cpext
        · split
          · exact heap_alloc_ext h _ _ cpext
          · exact mark_items_ext h _ _ cpext
          · exact cpext
    · rw [add_cache_heap_list]
      exact ⟨cplen, fun a ha => cpaddr a ha⟩

/-- Witness for C10 at a one-message heap: the original message object at
address 0 is unchanged after the call, the returned list has the input
length, and the empty input returns heap and list untouched. -/
theorem C10_cache_never_mutates_witness :
    (add_cache_control_to_messages_heap [[("content", HVal.str "hi")]] [0]).1[0]?
        = some [("content", HVal.str "hi")]
    ∧ (add_cache_control_to_messages_heap
        [[("content", HVal.str "hi")]] [0]).2.length = 1
    ∧ add_cache_control_to_messages_heap [[("content", HVal.str "hi")]] []
        = ([[("content", HVal.str "hi")]], []) := by
  refine ⟨?_, ?_, ?_⟩
  · have := (C10_cache_never_mutates [[("content", HVal.str "hi")]] [0]).1.2 0
      (by decide)
    simpa using this
  · exact ((C10_cache_never_mutates [[("content", HVal.str "hi")]] [0]).2.2
      (by simp)).1
  · exact (C10_cache_never_mutates [[("content", HVal.str "hi")]] []).2.1 rfl
